import Mathlib

/-!
The schema-driven CSV row decoder of tortuoise/csv.

A shallow embedding of `src/decode.go`.

* Go's `reflect.Type` of a destination becomes the inductive `Ty`; a struct
  type carries its ordered field list `Fields` (name, exportedness, the value
  of the `cap` tag, field type).
* A destination instance becomes a `Value`; the in-place writes of the Go code
  become explicit state passing: every decoder returns the destination as it
  stands when the call returns.
* A Go call either returns (with `nil` or with an error) or panics; panics are
  a separate outcome, never an error value.
* `int` is 64 bits wide (`strconv.IntSize = 64`).  Arithmetic on `int` wraps
  (`wrapInt`).
* `strconv.ParseInt` / `strconv.ParseUint` are modelled digit by digit;
  `strconv.ParseFloat` is a parameter `pf` of the decoders (a float is kept as
  its IEEE-754 bit pattern), so every statement holds for whatever
  `ParseFloat` computes.
-/

namespace Csv

/-! ## reflect.Kind and the three width tables -/

/-- The kinds of `reflect.Kind`. -/
inductive Kind
  | Invalid | Bool
  | Int | Int8 | Int16 | Int32 | Int64
  | Uint | Uint8 | Uint16 | Uint32 | Uint64 | Uintptr
  | Float32 | Float64 | Complex64 | Complex128
  | Array | Chan | Func | Interface | Map | Pointer | Slice | String | Struct
  | UnsafePointer
  deriving DecidableEq, Repr

/-- The table `intKindToSize` (decode.go:19-25). -/
def intKindToSize : Kind → Option Nat
  | .Int => some 0
  | .Int8 => some 8
  | .Int16 => some 16
  | .Int32 => some 32
  | .Int64 => some 64
  | _ => none

/-- The table `uintKindToSize` (decode.go:26-32). -/
def uintKindToSize : Kind → Option Nat
  | .Uint => some 0
  | .Uint8 => some 8
  | .Uint16 => some 16
  | .Uint32 => some 32
  | .Uint64 => some 64
  | _ => none

/-- The table `floatKindToSize` (decode.go:33-36). -/
def floatKindToSize : Kind → Option Nat
  | .Float32 => some 32
  | .Float64 => some 64
  | _ => none

/-! ## Machine integers -/

/-- The width of `int` and the value of `strconv.IntSize`. -/
def IntSize : Nat := 64

/-- Two's-complement reduction of an integer to `bits` bits (signed). -/
def wrapSigned (bits : Nat) (x : Int) : Int :=
  (x + 2 ^ (bits - 1)) % 2 ^ bits - 2 ^ (bits - 1)

/-- Arithmetic on Go's `int`: the result of an operation, reduced to 64 bits. -/
def wrapInt (x : Int) : Int := wrapSigned IntSize x

/-! ## strconv -/

/-- The two causes carried by a `*strconv.NumError`. -/
inductive NumError
  | ErrSyntax
  | ErrRange
  deriving DecidableEq, Repr

/-- The digit loop of `strconv.ParseUint` for base 10: `cutoff` is
`maxUint64/10 + 1`, `maxVal` is `2^bitSize - 1`, `n` the value so far
(a `uint64`). -/
def parseUintLoop (cutoff maxVal : Nat) : List Char → Nat → Except NumError Nat
  | [], n => .ok n
  | c :: cs, n =>
    if 48 ≤ c.toNat ∧ c.toNat ≤ 57 then
      let d := c.toNat - 48
      if n ≥ cutoff then .error .ErrRange
      else
        let n10 := n * 10
        let n1 := (n10 + d) % 2 ^ 64
        if n1 < n10 ∨ n1 > maxVal then .error .ErrRange
        else parseUintLoop cutoff maxVal cs n1
    else .error .ErrSyntax

/-- The call `strconv.ParseUint(s, 10, bitSize)` for `bitSize` one of
0, 8, 16, 32, 64. -/
def ParseUint (s : String) (bitSize : Nat) : Except NumError Nat :=
  if s.toList = [] then .error .ErrSyntax
  else
    let bitSize := if bitSize = 0 then IntSize else bitSize
    parseUintLoop ((2 ^ 64 - 1) / 10 + 1) (2 ^ bitSize - 1) s.toList 0

/-- The call `strconv.ParseInt(s, 10, bitSize)` for `bitSize` one of
0, 8, 16, 32, 64. -/
def ParseInt (s : String) (bitSize : Nat) : Except NumError Int :=
  match s.toList with
  | [] => .error .ErrSyntax
  | c :: cs =>
    let neg := c = '-'
    let digits := if c = '+' ∨ c = '-' then cs else c :: cs
    if digits = [] then .error .ErrSyntax
    else
      let bitSize := if bitSize = 0 then IntSize else bitSize
      match parseUintLoop ((2 ^ 64 - 1) / 10 + 1) (2 ^ bitSize - 1) digits 0 with
      | .error e => .error e
      | .ok un =>
        let cutoff := 2 ^ (bitSize - 1)
        if ¬ neg ∧ un ≥ cutoff then .error .ErrRange
        else if neg ∧ un > cutoff then .error .ErrRange
        else .ok (if neg then - (un : Int) else (un : Int))

/-! ## Values, errors, types -/

/-- A Go value, as far as the decoders read or write it.  Signed integers of
every width are `int`, unsigned ones `uint`, both float widths `float` (the
IEEE-754 bits of the `float64` that `SetFloat` receives).  A slice is the list
of its elements, a pointer or an interface holds `none` for `nil`.  `other` is
a value of a kind the decoders never write (complex, map, chan, func, array). -/
inductive Value
  | int (v : Int)
  | uint (v : Nat)
  | float (bits : Nat)
  | str (s : String)
  | bool (b : Bool)
  | struct (fields : List Value)
  | slice (elems : List Value)
  | ptr (target : Option Value)
  | iface (dyn : Option Value)
  | other

/-- The run-time panics the decoders can raise. -/
inductive Panic
  | indexOutOfRange
  | sliceBoundsOutOfRange
  | makeSliceNegativeLen
  | notAssignable
  | kindMismatch
  deriving DecidableEq, Repr

/-- The error values of the package, one constructor per `errors.New` /
`fmt.Errorf` site of decode.go (the line is given), plus the errors that come
from outside: `external` is an error of `csv.Reader.Read` or of a user's
`UnmarshalCSV`. -/
inductive Error
  /-- decode.go:63, 145, 174. -/
  | expectPtrToStruct
  /-- decode.go:75, "mismatch length of record: expect %d, get %d". -/
  | flatLengthMismatch (expect get : Int)
  /-- decode.go:158, "Mismatch length of record: expect %d, get %d". -/
  | recordLengthMismatch (expect get : Int)
  /-- decode.go:82, 186, "field %q is not settable". -/
  | notSettable (fName : String)
  /-- decode.go:105, 114, 123, 273, 282, 291, 303, "failed in parsing %q: %v". -/
  | failedParsing (fName : String) (cause : NumError)
  /-- decode.go:132, 313, "don't know how to decode field %q". -/
  | dontKnow (fName : String) (k : Kind)
  /-- decode.go:155, "Count error: %q: ". -/
  | countError (cause : Error)
  /-- decode.go:194, "Unmarshal error: %q ". -/
  | unmarshalError (cause : Error)
  /-- decode.go:197, 238, "Counting error: %q" around a nested error. -/
  | countingError (cause : Error)
  /-- decode.go:206, 244, "Counting error: %q Count so far: ... Tag: %q". -/
  | capTagError (cause : NumError) (soFar : Int) (tag : String)
  /-- decode.go:211, "Error setting slice: ...". -/
  | settingSlice (cause : Error) (fName : String) (j n : Int)
  /-- decode.go:219, "Field set error: %q". -/
  | fieldSetError (cause : Error)
  | external (msg : String)

/-- The method `UnmarshalCSV(string) error` of a pointer type: from the token
and the pointee before the call to the pointee after it and the returned
error. -/
abbrev UnmarshalCSV := String → Value → Value × Option Error

mutual
/-- A Go type as the decoders see it through `reflect`.
* `basic k` : a type of kind `k` other than struct, slice and pointer.  As the
  type of a field it stands for every type of that kind, predeclared (`int`,
  `string`, `bool`, `float64`, ... ; `basic .Interface` is `interface{}`) or
  defined (`type Celsius int16`), with or without methods: the decoders read
  the kind of such a field, never its method set (decode.go:92, 268-298), and
  its name only for the text of an error.  As the element type of a slice it
  is the predeclared type itself;
* `struct fs` : a struct type with fields `fs`;
* `slice elem` : the slice type `[]elem`;
* `ptr elem numMethod um` : the pointer type `*elem`, with the size of its
  method set and its `UnmarshalCSV` method when it implements `Unmarshaller`.

The identity of a type matters at one place, the comparison of a slice type
with `[]int` and `[]string` (decode.go:301-306).  The terms
`slice (basic .Int)` and `slice (basic .String)` are these two types and no
other.  A slice type that is not identical to one of them although its
elements are of kind `int` or `string` (`[]MyInt` with `type MyInt int`, or
the defined type `type IDs []int`) takes the `default` case of that switch, as
`[]int64` does; such a type is not a term of the model, and what is stated
here of `slice (basic .Int)` is stated of `[]int` alone. -/
inductive Ty
  | basic (k : Kind)
  | struct (fields : Fields)
  | slice (elem : Ty)
  | ptr (elem : Ty) (numMethod : Nat) (um : Option UnmarshalCSV)
/-- The fields of a struct type in declaration order: name, whether the name
is exported, the value of `Tag.Get("cap")` (empty when the tag is absent), and
the field type. -/
inductive Fields
  | nil
  | cons (name : String) (exported : Bool) (cap : String) (ty : Ty) (rest : Fields)
end

/-- The call `t.Kind()`. -/
def Ty.kind : Ty → Kind
  | .basic k => k
  | .struct _ => .Struct
  | .slice _ => .Slice
  | .ptr _ _ _ => .Pointer

/-- The call `t.NumField()`. -/
def Fields.length : Fields → Nat
  | .nil => 0
  | .cons _ _ _ _ rest => rest.length + 1

/-- The zero value of a type of kind `k` that is not struct, slice or
pointer. -/
def zeroBasic : Kind → Value
  | .Int | .Int8 | .Int16 | .Int32 | .Int64 => .int 0
  | .Uint | .Uint8 | .Uint16 | .Uint32 | .Uint64 | .Uintptr => .uint 0
  | .Float32 | .Float64 => .float 0
  | .String => .str ""
  | .Bool => .bool false
  | .Interface => .iface none
  | _ => .other

/-- The zero values of the fields of a struct type, in order. -/
def zeroFields : Fields → List Value
  | .nil => []
  | .cons _ _ _ (.struct fs) rest => .struct (zeroFields fs) :: zeroFields rest
  | .cons _ _ _ (.slice _) rest => .slice [] :: zeroFields rest
  | .cons _ _ _ (.ptr _ _ _) rest => .ptr none :: zeroFields rest
  | .cons _ _ _ (.basic k) rest => zeroBasic k :: zeroFields rest

/-- The zero value of a type: what `reflect.New(t).Elem()` holds. -/
def zero : Ty → Value
  | .basic k => zeroBasic k
  | .struct fs => .struct (zeroFields fs)
  | .slice _ => .slice []
  | .ptr _ _ _ => .ptr none

/-- The dynamic value of an `interface{}` argument `v`: `nil`, a pointer `*T`
(nil, or pointing to a value of type `T`), or a non-pointer value. -/
inductive Iface
  | nil
  | pointer (elem : Ty) (target : Option Value)
  | value (t : Ty) (v : Value)

/-- The fields of a struct value; a value that is not a struct has none. -/
def fieldsOf : Value → List Value
  | .struct vs => vs
  | _ => []

/-- The string `k.String()` of a kind, which is also the name of the
predeclared type of that kind. -/
def kindName : Kind → String
  | .Invalid => "invalid" | .Bool => "bool"
  | .Int => "int" | .Int8 => "int8" | .Int16 => "int16" | .Int32 => "int32"
  | .Int64 => "int64"
  | .Uint => "uint" | .Uint8 => "uint8" | .Uint16 => "uint16"
  | .Uint32 => "uint32" | .Uint64 => "uint64" | .Uintptr => "uintptr"
  | .Float32 => "float32" | .Float64 => "float64"
  | .Complex64 => "complex64" | .Complex128 => "complex128"
  | .Array => "array" | .Chan => "chan" | .Func => "func"
  | .Interface => "interface" | .Map => "map" | .Pointer => "ptr"
  | .Slice => "slice" | .String => "string" | .Struct => "struct"
  | .UnsafePointer => "unsafe.Pointer"

/-- The call `t.Name()` at a predeclared or unnamed type: the name of the
predeclared types `bool`, `string` and the numeric ones, `Pointer` for
`unsafe.Pointer`, and the empty string for a type that has no name (a type
literal: `interface{}`, an array, channel, function, map, pointer, slice or
struct type).  For a defined type `t.Name()` is the declared name, which the
model does not keep; it reaches nothing but the text of an error. -/
def Ty.name : Ty → String
  | .basic .Invalid | .basic .Array | .basic .Chan | .basic .Func
  | .basic .Interface | .basic .Map | .basic .Pointer | .basic .Slice
  | .basic .Struct => ""
  | .basic .UnsafePointer => "Pointer"
  | .basic k => kindName k
  | _ => ""

/-! ## The scalar coercer -/

/-- The type of `strconv.ParseFloat`: token and bit size to the bits of the
resulting `float64`, or a `NumError`. -/
abbrev ParseFloatFn := String → Nat → Except NumError Nat

/-- The width in bits that `SetInt` / `SetUint` store for a table size
(`0` stands for the width of `int`). -/
def storeBits (size : Nat) : Nat := if size = 0 then IntSize else size

/-- The four scalar branches that `Decode` (decode.go:100-131) and
`SetFieldWithValue` (decode.go:268-298) share: for a kind of one of the three
tables or `String`, the value that is then stored with `SetInt`, `SetUint`,
`SetFloat` or `SetString`, or the parse failure; `none` for any other kind.
The empty token skips the parse and stores zero. -/
def coerce (pf : ParseFloatFn) (k : Kind) (fValue : String) :
    Option (Except NumError Value) :=
  match intKindToSize k with
  | some size =>
    some (match (if fValue != "" then ParseInt fValue size else .ok 0) with
      | .error e => .error e
      | .ok i => .ok (.int (wrapSigned (storeBits size) i)))
  | none =>
    match uintKindToSize k with
    | some size =>
      some (match (if fValue != "" then ParseUint fValue size else .ok 0) with
        | .error e => .error e
        | .ok u => .ok (.uint (u % 2 ^ storeBits size)))
    | none =>
      match floatKindToSize k with
      | some size =>
        some (match (if fValue != "" then pf fValue size else .ok 0) with
          | .error e => .error e
          | .ok x => .ok (.float x))
      | none =>
        if k = .String then some (.ok (.str fValue)) else none

/-- What the `reflect.Value` argument `f` of `SetFieldWithValue` designates:
an addressable struct field holding `cur`, or the empty slice `f.Slice(n, n)`
cut at offset `n` out of the slice stored in a field, whose elements are
`backing` (it shares the array of that slice and has capacity
`backing.length - n`). -/
inductive Target
  | field (cur : Value)
  | window (backing : List Value) (n : Nat)

/-- The outcome of `SetFieldWithValue`: `nil` with the target as written, an
error (nothing is written before an error), or a panic. -/
inductive SetResult
  | ok (f : Target)
  | err (e : Error)
  | panic (p : Panic)

/-- The calls `f.SetInt`, `f.SetUint`, `f.SetFloat`, `f.SetString`: they write
a field, and panic on a value of kind slice. -/
def Target.set (f : Target) (v : Value) : SetResult :=
  match f with
  | .field _ => .ok (.field v)
  | .window _ _ => .panic .kindMismatch

/-- The call `reflect.Append(f, x)` with its result dropped, as in
decode.go:305-309.  On the window `f.Slice(n, n)` the appended element lands
in the shared array at offset `n` while the capacity allows (`n` below the
length of `backing`); otherwise, and on a slice held in a field, it lands in a
new array that nobody keeps. -/
def Target.append (f : Target) (x : Value) : Target :=
  match f with
  | .window backing n => .window (backing.set n x) n
  | .field cur => .field cur

/-- The value a field target holds. -/
def Target.value : Target → Value
  | .field cur => cur
  | .window backing _ => .slice backing

/-- The elements of the slice a target belongs to. -/
def Target.elems : Target → List Value
  | .window backing _ => backing
  | .field (.slice es) => es
  | .field _ => []

/-- The function `SetFieldWithValue(ft, f, fValue)` (decode.go:256-315), `f`
being a value of type `ft` as at both call sites. -/
def SetFieldWithValue (pf : ParseFloatFn) (ft : Ty) (f : Target) (fValue : String) :
    SetResult :=
  let fName := ft.name
  let k := ft.kind
  match coerce pf k fValue with
  | some (.error e) => .err (.failedParsing fName e)
  | some (.ok v) => f.set v
  | none =>
    if k = .Slice then
      match ft with
      | .slice (.basic .Int) =>
        match ParseInt fValue 0 with
        | .error e => .err (.failedParsing fName e)
        | .ok i => .ok (f.append (.int i))
      | .slice (.basic .String) => .ok (f.append (.str fValue))
      | .slice (.basic .Interface) => .ok (f.append (.iface (some (.str fValue))))
      | _ => .panic .notAssignable
    else .err (.dontKnow fName k)

/-! ## The span counter -/

/-- The loop of `DeepCount` (decode.go:233-251) over the fields from some
index on, `count` being the running total. -/
def countFields : Fields → Int → Except Error Int
  | .nil, count => .ok count
  | .cons _ _ _ (.struct nfs) rest, count =>
    match countFields nfs 0 with
    | .error e => .error (.countingError e)
    | .ok c => countFields rest (wrapInt (count + c))
  | .cons _ _ cap (.slice _) rest, count =>
    match ParseInt cap 0 with
    | .error e => .error (.capTagError e count cap)
    | .ok add => countFields rest (wrapInt (count + add))
  | .cons _ _ _ (.basic _) rest, count => countFields rest (wrapInt (count + 1))
  | .cons _ _ _ (.ptr _ _ _) rest, count => countFields rest (wrapInt (count + 1))

/-- The function `DeepCount(v)` (decode.go:229-254) for `v` a pointer to a
value of type `typ`, which is how the package calls it. -/
def DeepCount (typ : Ty) : Except Error Int :=
  match typ with
  | .struct fs => countFields fs 0
  | _ => .ok 0

/-! ## The recursive decoder -/

/-- The expression `record[j]`: `none` stands for the index-out-of-range
panic. -/
def index (record : List String) (j : Int) : Option String :=
  if j < 0 then none else record[j.toNat]?

/-- The expression `record[j:]`: `none` stands for the slice-bounds panic. -/
def sliceFrom (record : List String) (j : Int) : Option (List String) :=
  if j < 0 ∨ (record.length : Int) < j then none else some (record.drop j.toNat)

/-- The outcome of the loop over the elements of a repeated field. -/
inductive Fill
  | ok (backing : List Value)
  | err (backing : List Value) (e : Error)
  | panic (p : Panic)

/-- The loop `for n := 0; n < int(add); n++` of decode.go:209-214, with
`rem` iterations left, the next one at index `n`; `backing` holds the elements
of the field's slice, which `reflect.MakeSlice` has allocated (the limits of
the allocator are not modelled: a slice of any non-negative length exists). -/
def fillSlice (pf : ParseFloatFn) (ft : Ty) (fName : String) (record : List String)
    (j : Int) : Nat → Nat → List Value → Fill
  | 0, _, backing => .ok backing
  | rem + 1, n, backing =>
    match index record (wrapInt (j + n)) with
    | none => .panic .indexOutOfRange
    | some tok =>
      match SetFieldWithValue pf ft (.window backing n) tok with
      | .panic p => .panic p
      | .err e => .err backing (.settingSlice e fName j n)
      | .ok f => fillSlice pf ft fName record j rem (n + 1) f.elems

/-- The outcome of the walk over the fields of one struct: the field values
of the struct when the walk ends, and the error if it ended with one. -/
inductive Walk
  | done (vals : List Value)
  | fail (vals : List Value) (e : Error)
  | panic (p : Panic)

/-- Puts the value of an earlier field in front of the outcome of the rest of
the walk. -/
def Walk.cons (v : Value) : Walk → Walk
  | .done vals => .done (v :: vals)
  | .fail vals e => .fail (v :: vals) e
  | .panic p => .panic p

/-- The loop of `DeepUnmarshal` (decode.go:180-225) from field index `i` on:
the first argument holds the fields `i, i+1, ...` of the struct type, `olds`
the values these fields hold, `j` is the token cursor on entry to iteration
`i`.  Every iteration ends with the post statement `i, j = i+1, j+1`, also
after `continue`. -/
def walk (pf : ParseFloatFn) : Fields → List Value → List String → Int → Walk
  | .nil, _, _, _ => .done []
  | .cons fName exported _ (.struct nfs) rest, olds, record, j =>
    if ¬ exported then .fail olds (.notSettable fName)
    else
      -- f.Set(reflect.New(ft).Elem()), then DeepUnmarshal(f.Addr(), record[j:])
      match sliceFrom record j with
      | none => .panic .sliceBoundsOutOfRange
      | some sub =>
        match walk pf nfs (zeroFields nfs) sub 0 with
        | .panic p => .panic p
        | .fail nvals e => .fail (.struct nvals :: olds.tail) (.unmarshalError e)
        | .done nvals =>
          match DeepCount (.struct nfs) with
          | .error e => .fail (.struct nvals :: olds.tail) (.countingError e)
          | .ok cnt =>
            -- j += int(cnt); continue
            (walk pf rest olds.tail record (wrapInt (wrapInt (j + cnt) + 1))).cons
              (.struct nvals)
  | .cons fName exported cap (.slice elem) rest, olds, record, j =>
    if ¬ exported then .fail olds (.notSettable fName)
    else
      match ParseInt cap 0 with
      | .error e => .fail olds (.capTagError e j cap)
      | .ok add =>
        if add < 0 then .panic .makeSliceNegativeLen
        else
          match fillSlice pf (.slice elem) fName record j add.toNat 0
              (List.replicate add.toNat (zero elem)) with
          | .panic p => .panic p
          | .err backing e => .fail (.slice backing :: olds.tail) e
          | .ok backing =>
            -- j += int(add) - 1
            (walk pf rest olds.tail record
              (wrapInt (wrapInt (j + wrapInt (add - 1)) + 1))).cons (.slice backing)
  | .cons fName exported _ (.basic k) rest, olds, record, j =>
    if ¬ exported then .fail olds (.notSettable fName)
    else
      match index record j with
      | none => .panic .indexOutOfRange
      | some tok =>
        match SetFieldWithValue pf (.basic k) (.field (olds.headD (zeroBasic k))) tok with
        | .panic p => .panic p
        | .err e => .fail olds (.fieldSetError e)
        | .ok f => (walk pf rest olds.tail record (wrapInt (j + 1))).cons f.value
  | .cons fName exported _ (.ptr elem nm um) rest, olds, record, j =>
    if ¬ exported then .fail olds (.notSettable fName)
    else
      match index record j with
      | none => .panic .indexOutOfRange
      | some tok =>
        match SetFieldWithValue pf (.ptr elem nm um) (.field (olds.headD (.ptr none))) tok with
        | .panic p => .panic p
        | .err e => .fail olds (.fieldSetError e)
        | .ok f => (walk pf rest olds.tail record (wrapInt (j + 1))).cons f.value

/-- The outcome of a call of a decoder on the argument `v`: the call returns,
leaving the argument as `dest` and giving the error `err` (`none` is `nil`),
or it panics. -/
inductive Outcome
  | ret (dest : Iface) (err : Option Error)
  | panic (p : Panic)

/-- Turns the outcome of the walk over the struct `*v` into the outcome of
the call. -/
def Walk.toOutcome (fs : Fields) : Walk → Outcome
  | .done vals => .ret (.pointer (.struct fs) (some (.struct vals))) none
  | .fail vals e => .ret (.pointer (.struct fs) (some (.struct vals))) (some e)
  | .panic p => .panic p

/-- The function `DeepUnmarshal(v, record)` (decode.go:165-227). -/
def DeepUnmarshal (pf : ParseFloatFn) (v : Iface) (record : List String) : Outcome :=
  match v with
  | .pointer (.struct fs) (some s) => (walk pf fs (fieldsOf s) record 0).toOutcome fs
  | _ => .ret v (some .expectPtrToStruct)

/-- The method `DeepUnmarshalCSV(v)` (decode.go:137-163); `read` is what
`dec.Read()` returns when it is called. -/
def DeepUnmarshalCSV (pf : ParseFloatFn) (read : Except Error (List String)) (v : Iface) :
    Outcome :=
  match v with
  | .pointer (.struct fs) (some _) =>
    match read with
    | .error e => .ret v (some e)
    | .ok record =>
      match DeepCount (.struct fs) with
      | .error e => .ret v (some (.countError e))
      | .ok count =>
        if count ≠ record.length then
          .ret v (some (.recordLengthMismatch count record.length))
        else DeepUnmarshal pf v record
  | _ => .ret v (some .expectPtrToStruct)

/-! ## The flat decoder -/

/-- The loop `for i, fValue := range record` of `Decode` (decode.go:78-133)
from index `i` on: the first argument holds the fields `i, i+1, ...` of the
struct type, `olds` their values, the last argument the tokens `i, i+1, ...`.
`s.Field(i)` panics when the struct has no field `i`. -/
def decodeFields (pf : ParseFloatFn) : Fields → List Value → List String → Walk
  | .nil, _, [] => .done []
  | .cons _ _ _ _ _, olds, [] => .done olds
  | .nil, _, _ :: _ => .panic .indexOutOfRange
  | .cons fName exported _ ft rest, olds, fValue :: record =>
    if ¬ exported then .fail olds (.notSettable fName)
    else
      match ft with
      | .ptr elem numMethod um =>
        -- a nil pointer is first set to reflect.New(f.Type().Elem())
        let pointee : Value :=
          match olds.headD (.ptr none) with
          | .ptr (some p) => p
          | _ => zero elem
        match (if numMethod ≠ 0 then um else none) with
        | some unmarshal =>
          match unmarshal fValue pointee with
          | (p, some e) => .fail (.ptr (some p) :: olds.tail) e
          | (p, none) => (decodeFields pf rest olds.tail record).cons (.ptr (some p))
        | none => .fail (.ptr (some pointee) :: olds.tail) (.dontKnow fName .Pointer)
      | _ =>
        match coerce pf ft.kind fValue with
        | some (.error e) => .fail olds (.failedParsing fName e)
        | some (.ok v) => (decodeFields pf rest olds.tail record).cons v
        | none => .fail olds (.dontKnow fName ft.kind)

/-- The method `Decode(v)` (decode.go:53-135); `read` is what `dec.Read()`
returns when it is called. -/
def Decode (pf : ParseFloatFn) (read : Except Error (List String)) (v : Iface) : Outcome :=
  match v with
  | .pointer (.struct fs) (some s) =>
    match read with
    | .error e => .ret v (some e)
    | .ok record =>
      if fs.length ≠ record.length then
        .ret v (some (.flatLengthMismatch fs.length record.length))
      else (decodeFields pf fs (fieldsOf s) record).toOutcome fs
  | _ => .ret v (some .expectPtrToStruct)

/-! ## Vocabulary of the statements -/

/-- One field of a struct type, as `reflect.StructField` describes it. -/
structure StructField where
  name : String
  exported : Bool
  cap : String
  ty : Ty

/-- The fields of a struct type as a list. -/
def Fields.toList : Fields → List StructField
  | .nil => []
  | .cons name exported cap ty rest => ⟨name, exported, cap, ty⟩ :: rest.toList

/-- The token demand of one field, in the words of the specification: 1 for
a scalar field, the declared count for a repeated field, `DeepCount` of the
nested type for a nested record (0 stands in where the count is undefined). -/
def span (f : StructField) : Int :=
  match f.ty with
  | .struct nfs => (DeepCount (.struct nfs)).toOption.getD 0
  | .slice _ => (ParseInt f.cap 0).toOption.getD 0
  | _ => 1

/-- The sum of the token demands of the fields of a struct type. -/
def spanSum (fs : Fields) : Int := (fs.toList.map span).sum

/-- Every repeated field of the type, directly or through nested records,
carries a count tag that `strconv.ParseInt(tag, 10, 0)` accepts. -/
def CapsNumeric : Fields → Prop
  | .nil => True
  | .cons _ _ _ (.struct nfs) rest => CapsNumeric nfs ∧ CapsNumeric rest
  | .cons _ _ cap (.slice _) rest => (∃ c, ParseInt cap 0 = .ok c) ∧ CapsNumeric rest
  | .cons _ _ _ (.basic _) rest => CapsNumeric rest
  | .cons _ _ _ (.ptr _ _ _) rest => CapsNumeric rest

/-- An exported field of the predeclared type of kind `k`. -/
def scalarField (name : String) (k : Kind) (rest : Fields) : Fields :=
  .cons name true "" (.basic k) rest

/-- The destination type `[Scalar, Nested(Scalar, Scalar), Scalar]`:
`struct { A int; B struct { X int; Y int }; C int }`. -/
def scalarNestedScalar : Fields :=
  scalarField "A" .Int
    (.cons "B" true "" (.struct (scalarField "X" .Int (scalarField "Y" .Int .nil)))
      (scalarField "C" .Int .nil))

/-- The destination type with one scalar, one nested record holding one
scalar, and one repeated field of declared length 3:
`struct { A int; B struct { X int }; R []int "cap:3" }`. -/
def scalarNestedRepeated : Fields :=
  scalarField "A" .Int
    (.cons "B" true "" (.struct (scalarField "X" .Int .nil))
      (.cons "R" true "3" (.slice (.basic .Int)) .nil))

/-- The destination type with two repeated fields whose declared counts are
both the largest `int`:
`struct { R []int "cap:9223372036854775807"; S []int "cap:9223372036854775807" }`. -/
def twoHugeRepeated : Fields :=
  .cons "R" true "9223372036854775807" (.slice (.basic .Int))
    (.cons "S" true "9223372036854775807" (.slice (.basic .Int)) .nil)

/-- Whether an error is, or wraps at any depth, a length-mismatch error
(decode.go:75 or decode.go:158). -/
def Error.isLengthMismatch : Error → Bool
  | .flatLengthMismatch _ _ => true
  | .recordLengthMismatch _ _ => true
  | .countError c => c.isLengthMismatch
  | .unmarshalError c => c.isLengthMismatch
  | .countingError c => c.isLengthMismatch
  | .settingSlice c _ _ _ => c.isLengthMismatch
  | .fieldSetError c => c.isLengthMismatch
  | _ => false

/-- A `ParseFloatFn` that agrees with `strconv.ParseFloat` on the float tokens
of the rows of example_test.go ("3", "6", "0.0", "2.1", at both bit sizes) and
rejects every other token; it stands for `pf` where a statement is evaluated
at a concrete input. -/
def exampleParseFloat : ParseFloatFn := fun s bitSize =>
  if s = "3" then .ok 0x4008000000000000
  else if s = "6" then .ok 0x4018000000000000
  else if s = "0.0" then .ok 0
  else if s = "2.1" then .ok (if bitSize = 32 then 0x4000CCCCC0000000 else 0x4000CCCCCCCCCCCD)
  else .error .ErrSyntax

/-- The destination type `struct { A int; B int }`. -/
def twoScalars : Fields := scalarField "A" .Int (scalarField "B" .Int .nil)

/-- The destination type `struct { N struct { A int; B int } }`. -/
def nestedTwoScalars : Fields := .cons "N" true "" (.struct twoScalars) .nil

/-- The kinds of the three width tables: signed integer, unsigned integer and
floating point. -/
def isNumericKind (k : Kind) : Bool :=
  (intKindToSize k).isSome || (uintKindToSize k).isSome || (floatKindToSize k).isSome

/-- The scalar kinds: the numeric kinds and `String`. -/
def isScalarKind (k : Kind) : Bool := isNumericKind k || k == .String

/-- The destination and the row fit the flat decoder: every field is an
exported field of a scalar kind, there is one token per field, and every token
is valid for its field (the scalar coercer yields a value). -/
def FlatValid (pf : ParseFloatFn) : Fields → List String → Prop
  | .nil, [] => True
  | .cons _ exported _ (.basic k) rest, tok :: toks =>
    exported = true ∧ isScalarKind k = true ∧ (∃ v, coerce pf k tok = some (.ok v)) ∧
      FlatValid pf rest toks
  | _, _ => False

/-- Field `i` of `vals` is the coercion of token `i`, for every `i`. -/
def FlatDecoded (pf : ParseFloatFn) : Fields → List String → List Value → Prop
  | .nil, [], [] => True
  | .cons _ _ _ ty rest, tok :: toks, v :: vs =>
    coerce pf ty.kind tok = some (.ok v) ∧ FlatDecoded pf rest toks vs
  | _, _, _ => False

/-- The destination type of `ExampleDecoder_Decode` (example_test.go:15-20):
`struct { F1 int; F2 int; F3 float32; F4 string }`. -/
def exampleT : Fields :=
  scalarField "F1" .Int (scalarField "F2" .Int
    (scalarField "F3" .Float32 (scalarField "F4" .String .nil)))

/-- An ASCII decimal digit. -/
def isDecimalDigit (c : Char) : Bool := decide (48 ≤ c.toNat) && decide (c.toNat ≤ 57)

/-- The string is a base-10 integer: an optional sign followed by one or more
decimal digits.  The empty string, which is what an absent tag reads as, is
not. -/
def isBase10Integer (s : String) : Bool :=
  match s.toList with
  | [] => false
  | c :: cs =>
    let digits := if c = '+' ∨ c = '-' then cs else c :: cs
    !digits.isEmpty && digits.all isDecimalDigit

/-- The type contains, directly or through nested records, a repeated field
whose count tag is absent or is not a base-10 integer. -/
def HasBadCap : Fields → Prop
  | .nil => False
  | .cons _ _ _ (.struct nfs) rest => HasBadCap nfs ∨ HasBadCap rest
  | .cons _ _ cap (.slice _) rest => isBase10Integer cap = false ∨ HasBadCap rest
  | .cons _ _ _ (.basic _) rest => HasBadCap rest
  | .cons _ _ _ (.ptr _ _ _) rest => HasBadCap rest

/-- Whether an error is the error of decode.go:244 about the count tag of a
repeated field, possibly wrapped by the `DeepCount` calls of enclosing
records (decode.go:238). -/
def Error.isCapTagError : Error → Bool
  | .capTagError _ _ _ => true
  | .countingError c => c.isCapTagError
  | _ => false

/-- The destination type `struct { A int; N struct { R []int } }`, whose
repeated field has no `cap` tag. -/
def nestedUntagged : Fields :=
  scalarField "A" .Int
    (.cons "N" true "" (.struct (.cons "R" true "" (.slice (.basic .Int)) .nil)) .nil)

/-- A field type whose kind is none of integer, unsigned integer, float,
string, nested record or repeated sequence: a pointer type, or a type of
another kind such as `bool`. -/
def Unrecognized : Ty → Prop
  | .basic k => isScalarKind k = false ∧ k ≠ .Slice ∧ k ≠ .Struct ∧ k ≠ .Pointer
  | .ptr _ _ _ => True
  | _ => False

/-- The type has a field of unrecognized kind, directly or in a nested
record. -/
def HasUnrecognized : Fields → Prop
  | .nil => False
  | .cons _ _ _ (.struct nfs) rest => HasUnrecognized nfs ∨ HasUnrecognized rest
  | .cons _ _ _ (.slice _) rest => HasUnrecognized rest
  | .cons _ _ _ (.basic k) rest => Unrecognized (.basic k) ∨ HasUnrecognized rest
  | .cons _ _ _ (.ptr _ _ _) _ => True

/-- The destination type `struct { B bool }`. -/
def oneBool : Fields := scalarField "B" .Bool .nil

/-- The destination type `struct { N struct { X int }; B bool }`. -/
def nestedThenBool : Fields :=
  .cons "N" true "" (.struct (scalarField "X" .Int .nil)) (scalarField "B" .Bool .nil)

/-- The destination type `struct { A int; B bool; C int }`. -/
def scalarBoolScalar : Fields :=
  scalarField "A" .Int (scalarField "B" .Bool (scalarField "C" .Int .nil))

/-- What the slice branch of `SetFieldWithValue` (decode.go:299-311) appends
for the token of one element, by the kind of the predeclared element type: an
`int` element is parsed with `ParseInt(fValue, 10, 0)`, with no guard for the
empty token; a `string` element is the token itself; an `interface{}` element
holds the token as a string (the `default` case).  `none`: the branch returns
an error or panics.  This is what the code does; the coercion that the
specification asks for an element is the scalar coercer, `Leaf.coerce`. -/
def appendedElem (elem : Kind) (tok : String) : Option Value :=
  match elem with
  | .Int =>
    match ParseInt tok 0 with
    | .ok i => some (.int i)
    | .error _ => none
  | .String => some (.str tok)
  | .Interface => some (.iface (some (.str tok)))
  | _ => none

/-- The destination type `struct { R []int "cap:3" }`. -/
def oneRepeated : Fields := .cons "R" true "3" (.slice (.basic .Int)) .nil

/-- A leaf of a destination type: a scalar field of kind `k`, or one element,
of kind `k`, of a repeated field. -/
inductive Leaf
  | scalar (k : Kind)
  | elem (k : Kind)

/-- The coercion of a token into a leaf: the scalar coercer, for a scalar
field and for an element of a repeated field alike (in particular the empty
token is zero for an integer or float leaf of either sort).  `none`: the token
is not valid for the leaf. -/
def Leaf.coerce (pf : ParseFloatFn) : Leaf → String → Option Value
  | .scalar k, tok =>
    match Csv.coerce pf k tok with
    | some (.ok v) => some v
    | _ => none
  | .elem k, tok =>
    match Csv.coerce pf k tok with
    | some (.ok v) => some v
    | _ => none

/-- The declared element count of a repeated field: the number its count tag
denotes (0 when the tag denotes no natural number). -/
def declaredCount (cap : String) : Nat := ((ParseInt cap 0).toOption.getD 0).toNat

/-- The leaves of a destination type in declaration order, through nested
records and repeated fields. -/
def leavesOf : Fields → List Leaf
  | .nil => []
  | .cons _ _ _ (.struct nfs) rest => leavesOf nfs ++ leavesOf rest
  | .cons _ _ cap (.slice (.basic e)) rest =>
    List.replicate (declaredCount cap) (.elem e) ++ leavesOf rest
  | .cons _ _ _ (.slice _) rest => leavesOf rest
  | .cons _ _ _ (.basic k) rest => .scalar k :: leavesOf rest
  | .cons _ _ _ (.ptr _ _ _) rest => leavesOf rest

mutual
/-- The leaves of a value in order: a struct and a slice are read through,
any other value is a leaf. -/
def leaves : Value → List Value
  | .struct vs => leavesList vs
  | .slice vs => leavesList vs
  | .int v => [.int v]
  | .uint v => [.uint v]
  | .float b => [.float b]
  | .str s => [.str s]
  | .bool b => [.bool b]
  | .ptr t => [.ptr t]
  | .iface t => [.iface t]
  | .other => [.other]
termination_by structural v => v
/-- The leaves of a list of values, in order. -/
def leavesList : List Value → List Value
  | [] => []
  | v :: vs => leaves v ++ leavesList vs
termination_by structural vs => vs
end

/-- A destination type shaped like the one of the example: exported scalar
fields and exported repeated fields of `int` or `string` elements whose count
tag denotes a natural number, and possibly a nested record, of the same shape,
as the last field of its enclosing record. -/
def ExampleShaped : Fields → Prop
  | .nil => True
  | .cons _ exported _ (.struct nfs) rest =>
    exported = true ∧ rest = .nil ∧ ExampleShaped nfs
  | .cons _ exported cap (.slice (.basic e)) rest =>
    exported = true ∧ (e = .Int ∨ e = .String) ∧ (∃ k : Nat, ParseInt cap 0 = .ok (k : Int)) ∧
      ExampleShaped rest
  | .cons _ _ _ (.slice _) _ => False
  | .cons _ exported _ (.basic k) rest =>
    exported = true ∧ isScalarKind k = true ∧ ExampleShaped rest
  | .cons _ _ _ (.ptr _ _ _) _ => False

/-- Modelled from the spec: the declaration of the type `Good` that
`ExampleDecoder_DeepUnmarshalCSV` decodes into is not part of the sources; the
expected output `&{0 0 [10 1] {false [1002 1003] [Boo Yeah Banjo]}}` and
`&{1 2.1 [11 12] {true [1002 1005] [Boo Nay Banjo]}}` shows its shape: two
scalars (an integer and a float), a 2-element sequence of integers, and a
nested record of one scalar (a string), a 2-element sequence of integers and a
3-element sequence of strings.  The field names are placeholders. -/
def exampleGood : Fields :=
  scalarField "Id" .Int (scalarField "Price" .Float64
    (.cons "Related" true "2" (.slice (.basic .Int))
      (.cons "Deets" true "" (.struct
        (scalarField "Desc" .String
          (.cons "Volumes" true "2" (.slice (.basic .Int))
            (.cons "Items" true "3" (.slice (.basic .String)) .nil)))) .nil)))

/-- Whether an error is, or wraps at any depth, the unsupported-field-kind
error "don't know how to decode field" (decode.go:132, 313). -/
def Error.isUnsupportedKind : Error → Bool
  | .dontKnow _ _ => true
  | .countError c => c.isUnsupportedKind
  | .unmarshalError c => c.isUnsupportedKind
  | .countingError c => c.isUnsupportedKind
  | .settingSlice c _ _ _ => c.isUnsupportedKind
  | .fieldSetError c => c.isUnsupportedKind
  | _ => false

/-- The token demand of a destination type as a natural number: the number of
its leaves, 1 for a field that is neither a nested record nor a repeated
field, the declared count for a repeated field, the demand of the nested type
for a nested record. -/
def demand : Fields → Nat
  | .nil => 0
  | .cons _ _ _ (.struct nfs) rest => demand nfs + demand rest
  | .cons _ _ cap (.slice _) rest => declaredCount cap + demand rest
  | .cons _ _ _ (.basic _) rest => 1 + demand rest
  | .cons _ _ _ (.ptr _ _ _) rest => 1 + demand rest

/-- Every repeated field of the type, directly or through nested records,
carries a count tag that denotes a natural number. -/
def CapsNatural : Fields → Prop
  | .nil => True
  | .cons _ _ _ (.struct nfs) rest => CapsNatural nfs ∧ CapsNatural rest
  | .cons _ _ cap (.slice _) rest =>
    (∃ k : Nat, ParseInt cap 0 = .ok (k : Int)) ∧ CapsNatural rest
  | .cons _ _ _ (.basic _) rest => CapsNatural rest
  | .cons _ _ _ (.ptr _ _ _) rest => CapsNatural rest

/-- The destination type `struct { A int; R []int "cap:-3" }`. -/
def negativeRepeated : Fields :=
  scalarField "A" .Int (.cons "R" true "-3" (.slice (.basic .Int)) .nil)

/-- The destination type `struct { R []int64 "cap:2" }`. -/
def repeatedInt64 : Fields := .cons "R" true "2" (.slice (.basic .Int64)) .nil

/-- The destination type `struct { R []float64 "cap:1" }`. -/
def repeatedFloat64 : Fields := .cons "R" true "1" (.slice (.basic .Float64)) .nil

/-- The destination type `struct { R []float64 "cap:0"; A int }`. -/
def emptyRepeatedFloat64 : Fields :=
  .cons "R" true "0" (.slice (.basic .Float64)) (scalarField "A" .Int .nil)

/-- The destination type `struct { R []interface{} "cap:2" }`. -/
def repeatedInterface : Fields := .cons "R" true "2" (.slice (.basic .Interface)) .nil

/-- The destination type `struct { R []struct { X int } "cap:1" }`. -/
def repeatedRecord : Fields :=
  .cons "R" true "1" (.slice (.struct (scalarField "X" .Int .nil))) .nil

/-- The value a pointer field points to when `UnmarshalCSV` is called on it in
`Decode`: its target, or for a nil pointer the zero value that decode.go:87-89
has just allocated. -/
def pointeeOf (elem : Ty) (old : Value) : Value :=
  match old with
  | .ptr (some p) => p
  | _ => zero elem

/-- An `UnmarshalCSV` method, for `type Name string` with
`func (n *Name) UnmarshalCSV(s string) error`: it stores the token, and returns
an error on the empty token. -/
def nameUnmarshalCSV : UnmarshalCSV := fun tok _ =>
  if tok = "" then (.str "", some (.external "empty name")) else (.str tok, none)

/-- The pointer type `*Name`, which implements `Unmarshaller`. -/
def namePtr : Ty := .ptr (.basic .String) 1 (some nameUnmarshalCSV)

/-- The destination type `struct { A int; P *Name; C int }`. -/
def scalarNameScalar : Fields :=
  scalarField "A" .Int (.cons "P" true "" namePtr (scalarField "C" .Int .nil))

/-- The struct type made of the first `n` fields of a struct type. -/
def Fields.firstN : Nat → Fields → Fields
  | 0, _ => .nil
  | _ + 1, .nil => .nil
  | n + 1, .cons name exported cap ty rest => .cons name exported cap ty (rest.firstN n)

/-- The natural number that a list of decimal digits denotes, continuing from
the value `n` of the digits read so far. -/
def digitsValueFrom (n : Nat) (cs : List Char) : Nat :=
  cs.foldl (fun a c => a * 10 + (c.toNat - 48)) n

/-- The natural number that a list of decimal digits denotes. -/
def digitsValue (cs : List Char) : Nat := digitsValueFrom 0 cs

/-- The integer that a base-10 integer token denotes: its digits, negated
after a minus sign. -/
def intOfToken (s : String) : Int :=
  match s.toList with
  | [] => 0
  | c :: cs =>
    if c = '-' then - (digitsValue cs : Int)
    else if c = '+' then (digitsValue cs : Int)
    else (digitsValue (c :: cs) : Int)

/-- The token is a base-10 integer without a sign: one or more decimal
digits. -/
def isUnsignedBase10 (s : String) : Bool :=
  !s.toList.isEmpty && s.toList.all isDecimalDigit

/-! ## Arithmetic on `int` -/

theorem wrapInt_eq (x : Int) : wrapInt x = (x + 2 ^ 63) % 2 ^ 64 - 2 ^ 63 := by
  simp [wrapInt, wrapSigned, IntSize]

theorem wrapInt_of_range {x : Int} (h1 : -(2 ^ 63) ≤ x) (h2 : x < 2 ^ 63) : wrapInt x = x := by
  rw [wrapInt_eq]
  omega

theorem wrapInt_wrapInt_add (a b : Int) : wrapInt (wrapInt a + b) = wrapInt (a + b) := by
  simp only [wrapInt_eq]
  omega

theorem wrapInt_idem (a : Int) : wrapInt (wrapInt a) = wrapInt a := by
  simp only [wrapInt_eq]
  omega

theorem wrapInt_lower (a : Int) : -(2 ^ 63) ≤ wrapInt a := by
  simp only [wrapInt_eq]
  omega

theorem wrapInt_upper (a : Int) : wrapInt a < 2 ^ 63 := by
  simp only [wrapInt_eq]
  omega

/-! ## C1 : the token cursor after a nested record -/

/-- C1, evaluated at the input of the claim.  Decoding the tokens
`["1","2","3","4"]` into `[Scalar, Nested(Scalar,Scalar), Scalar]` does not
succeed: after the nested record the cursor stands at 4 instead of 3 (the
`continue` of decode.go:202 still runs the post statement `j+1` after
`j += cnt`), so `record[4]` is read and the call panics, also when it is made
through `DeepUnmarshalCSV` (the row has `DeepCount = 4` tokens).  With a fifth
token the call returns, and field 2 holds 5: the token "4" is skipped. -/
theorem C1_cursor_after_nested_record_is_one_too_far (pf : ParseFloatFn) :
    DeepCount (.struct scalarNestedScalar) = .ok 4 ∧
    DeepUnmarshal pf (.pointer (.struct scalarNestedScalar)
        (some (zero (.struct scalarNestedScalar)))) ["1", "2", "3", "4"]
      = .panic .indexOutOfRange ∧
    DeepUnmarshalCSV pf (.ok ["1", "2", "3", "4"]) (.pointer (.struct scalarNestedScalar)
        (some (zero (.struct scalarNestedScalar))))
      = .panic .indexOutOfRange ∧
    DeepUnmarshal pf (.pointer (.struct scalarNestedScalar)
        (some (zero (.struct scalarNestedScalar)))) ["1", "2", "3", "4", "5"]
      = .ret (.pointer (.struct scalarNestedScalar)
          (some (.struct [.int 1, .struct [.int 2, .int 3], .int 5]))) none :=
  ⟨rfl, rfl, rfl, rfl⟩

/-! ## C2 : the span counter -/

theorem spanSum_nil : spanSum .nil = 0 := rfl

theorem spanSum_cons (name : String) (exported : Bool) (cap : String) (ty : Ty)
    (rest : Fields) :
    spanSum (.cons name exported cap ty rest)
      = span ⟨name, exported, cap, ty⟩ + spanSum rest := by
  simp [spanSum, Fields.toList]

/-- The loop of `DeepCount`, started with a running total that is an `int`,
ends with that total plus the sum of the spans, reduced to an `int`. -/
theorem countFields_eq_wrap :
    ∀ (fs : Fields) (count : Int), CapsNumeric fs → wrapInt count = count →
      countFields fs count = .ok (wrapInt (count + spanSum fs))
  | .nil, count, _, hc => by simp [countFields, spanSum_nil, hc]
  | .cons name exported cap (.struct nfs) rest, count, h, _ => by
    have ih1 := countFields_eq_wrap nfs 0 h.1 (by decide)
    have hs : span ⟨name, exported, cap, .struct nfs⟩ = wrapInt (0 + spanSum nfs) := by
      simp [span, DeepCount, ih1, Except.toOption]
    rw [countFields, ih1]
    simp only []
    rw [countFields_eq_wrap rest _ h.2 (wrapInt_idem _), spanSum_cons, hs]
    rw [wrapInt_wrapInt_add, add_assoc]
  | .cons name exported cap (.slice elem) rest, count, h, _ => by
    obtain ⟨c, hc⟩ := h.1
    have hs : span ⟨name, exported, cap, .slice elem⟩ = c := by
      simp [span, hc, Except.toOption]
    rw [countFields, hc]
    simp only []
    rw [countFields_eq_wrap rest _ h.2 (wrapInt_idem _), spanSum_cons, hs]
    rw [wrapInt_wrapInt_add, add_assoc]
  | .cons _ _ _ (.basic _) rest, count, h, _ => by
    rw [countFields, countFields_eq_wrap rest _ h (wrapInt_idem _), spanSum_cons]
    rw [wrapInt_wrapInt_add, add_assoc]
    rfl
  | .cons _ _ _ (.ptr _ _ _) rest, count, h, _ => by
    rw [countFields, countFields_eq_wrap rest _ h (wrapInt_idem _), spanSum_cons]
    rw [wrapInt_wrapInt_add, add_assoc]
    rfl

/-- Under `CapsNumeric` the span of every field is defined: it is 1 for a
scalar field, the parsed count tag for a repeated field, and the result of
`DeepCount` for a nested record. -/
theorem span_defined :
    ∀ (fs : Fields), CapsNumeric fs → ∀ f ∈ fs.toList,
      match f.ty with
      | .struct nfs => DeepCount (.struct nfs) = .ok (span f)
      | .slice _ => ParseInt f.cap 0 = .ok (span f)
      | _ => span f = 1
  | .nil, _, f, hf => by simp [Fields.toList] at hf
  | .cons name exported cap (.struct nfs) rest, h, f, hf => by
    simp only [Fields.toList, List.mem_cons] at hf
    rcases hf with rfl | hf
    · have := countFields_eq_wrap nfs 0 h.1 (by decide)
      simp [span, DeepCount, this, Except.toOption]
    · exact span_defined rest h.2 f hf
  | .cons name exported cap (.slice elem) rest, h, f, hf => by
    simp only [Fields.toList, List.mem_cons] at hf
    rcases hf with rfl | hf
    · obtain ⟨c, hc⟩ := h.1
      simp [span, hc, Except.toOption]
    · exact span_defined rest h.2 f hf
  | .cons name exported cap (.basic k) rest, h, f, hf => by
    simp only [Fields.toList, List.mem_cons] at hf
    rcases hf with rfl | hf
    · simp [span]
    · exact span_defined rest h f hf
  | .cons name exported cap (.ptr elem nm um) rest, h, f, hf => by
    simp only [Fields.toList, List.mem_cons] at hf
    rcases hf with rfl | hf
    · simp [span]
    · exact span_defined rest h f hf

/-- C2 as stated fails: the two count tags of `twoHugeRepeated` are numeric,
the sum of the declared counts is `2^64 - 2`, and `DeepCount` returns `-2`
(`count += int(add)` of decode.go:246 overflows `int`). -/
theorem C2_sum_overflows_int :
    ¬ (∀ fs : Fields, CapsNumeric fs → DeepCount (.struct fs) = .ok (spanSum fs)) := by
  intro h
  have h1 : DeepCount (.struct twoHugeRepeated) = .ok (spanSum twoHugeRepeated) :=
    h twoHugeRepeated ⟨⟨_, rfl⟩, ⟨_, rfl⟩, trivial⟩
  have h2 : DeepCount (.struct twoHugeRepeated) = .ok (-2) := rfl
  have h3 : spanSum twoHugeRepeated = 18446744073709551614 := rfl
  rw [h2, h3] at h1
  cases h1

/-- C2, amended.  For every destination record type whose repeated fields
all carry a count tag that parses as an `int`, `DeepCount` succeeds and
returns the sum over the fields of 1 for a scalar field, the declared count
for a repeated field and `DeepCount` of the nested type for a nested record,
computed in `int`: the sum reduced to 64 bits, which is the sum itself
whenever the sum is in the range of `int`.  For one scalar, one nested record
holding one scalar and one repeated field of declared length 3 it returns 5. -/
theorem C2_DeepCount_is_the_int_sum_of_spans (fs : Fields) (h : CapsNumeric fs) :
    DeepCount (.struct fs) = .ok (wrapInt (spanSum fs)) ∧
    (-(2 ^ 63) ≤ spanSum fs → spanSum fs < 2 ^ 63 →
      DeepCount (.struct fs) = .ok (spanSum fs)) ∧
    (∀ f ∈ fs.toList,
      match f.ty with
      | .struct nfs => DeepCount (.struct nfs) = .ok (span f)
      | .slice _ => ParseInt f.cap 0 = .ok (span f)
      | _ => span f = 1) ∧
    DeepCount (.struct scalarNestedRepeated) = .ok 5 := by
  have key : DeepCount (.struct fs) = .ok (wrapInt (spanSum fs)) := by
    have := countFields_eq_wrap fs 0 h (by decide)
    simpa [DeepCount] using this
  refine ⟨key, ?_, span_defined fs h, rfl⟩
  intro h1 h2
  rw [key, wrapInt_of_range h1 h2]

/-- C2 at `scalarNestedRepeated`: the hypothesis holds there and the count is
the sum `1 + 1 + 3`. -/
theorem C2_DeepCount_witness :
    CapsNumeric scalarNestedRepeated ∧
    spanSum scalarNestedRepeated = 1 + 1 + 3 ∧
    DeepCount (.struct scalarNestedRepeated) = .ok (wrapInt (spanSum scalarNestedRepeated)) :=
  ⟨⟨trivial, ⟨3, rfl⟩, trivial⟩, rfl,
    (C2_DeepCount_is_the_int_sum_of_spans scalarNestedRepeated
      ⟨trivial, ⟨3, rfl⟩, trivial⟩).1⟩

/-! ## C3, C4 : where the length of the row is checked -/

theorem Walk.cons_eq_fail {v : Value} {w : Walk} {vals : List Value} {e : Error}
    (h : w.cons v = .fail vals e) : ∃ vs, w = .fail vs e ∧ vals = v :: vs := by
  cases w <;> simp [Walk.cons] at h
  obtain ⟨h1, h2⟩ := h
  subst h1 h2
  exact ⟨_, rfl, rfl⟩

theorem Walk.cons_eq_done {v : Value} {w : Walk} {vals : List Value}
    (h : w.cons v = .done vals) : ∃ vs, w = .done vs ∧ vals = v :: vs := by
  cases w <;> simp [Walk.cons] at h
  exact ⟨_, rfl, h.symm⟩

theorem SetFieldWithValue_err_not_mismatch {pf : ParseFloatFn} {ft : Ty} {f : Target}
    {tok : String} {e : Error} (h : SetFieldWithValue pf ft f tok = .err e) :
    e.isLengthMismatch = false := by
  unfold SetFieldWithValue at h
  simp only at h
  split at h
  · cases h; rfl
  · cases f <;> simp [Target.set] at h
  · split at h
    · split at h
      · split at h
        · cases h; rfl
        · cases h
      · cases h
      · cases h
      · cases h
    · cases h; rfl

theorem countFields_err_not_mismatch :
    ∀ (fs : Fields) (count : Int) (e : Error), countFields fs count = .error e →
      e.isLengthMismatch = false
  | .nil, count, e, h => by simp [countFields] at h
  | .cons _ _ _ (.struct nfs) rest, count, e, h => by
    rw [countFields] at h
    split at h
    · rename_i e1 h1
      cases h
      exact countFields_err_not_mismatch nfs 0 e1 h1
    · exact countFields_err_not_mismatch rest _ e h
  | .cons _ _ cap (.slice _) rest, count, e, h => by
    rw [countFields] at h
    split at h
    · cases h; rfl
    · exact countFields_err_not_mismatch rest _ e h
  | .cons _ _ _ (.basic _) rest, count, e, h => by
    rw [countFields] at h
    exact countFields_err_not_mismatch rest _ e h
  | .cons _ _ _ (.ptr _ _ _) rest, count, e, h => by
    rw [countFields] at h
    exact countFields_err_not_mismatch rest _ e h

theorem fillSlice_err_not_mismatch {pf : ParseFloatFn} {ft : Ty} {fName : String}
    {record : List String} {j : Int} :
    ∀ (rem n : Nat) (backing b : List Value) (e : Error),
      fillSlice pf ft fName record j rem n backing = .err b e → e.isLengthMismatch = false
  | 0, n, backing, b, e, h => by simp [fillSlice] at h
  | rem + 1, n, backing, b, e, h => by
    rw [fillSlice] at h
    split at h
    · cases h
    · split at h
      · cases h
      · rename_i e1 h1
        cases h
        simpa [Error.isLengthMismatch] using SetFieldWithValue_err_not_mismatch h1
      · exact fillSlice_err_not_mismatch rem (n + 1) _ b e h

theorem walk_fail_not_mismatch (pf : ParseFloatFn) :
    ∀ (fs : Fields) (olds : List Value) (record : List String) (j : Int)
      (vals : List Value) (e : Error),
      walk pf fs olds record j = .fail vals e → e.isLengthMismatch = false
  | .nil, olds, record, j, vals, e, h => by simp [walk] at h
  | .cons fName exported cap (.struct nfs) rest, olds, record, j, vals, e, h => by
    rw [walk] at h
    split at h
    · cases h; rfl
    · split at h
      · cases h
      · split at h
        · cases h
        · rename_i nvals e1 h1
          cases h
          exact walk_fail_not_mismatch pf nfs _ _ _ _ e1 h1
        · split at h
          · rename_i e1 h1
            cases h
            exact countFields_err_not_mismatch nfs 0 e1 h1
          · obtain ⟨vs, h2, -⟩ := Walk.cons_eq_fail h
            exact walk_fail_not_mismatch pf rest _ _ _ _ e h2
  | .cons fName exported cap (.slice elem) rest, olds, record, j, vals, e, h => by
    rw [walk] at h
    split at h
    · cases h; rfl
    · split at h
      · cases h; rfl
      · split at h
        · cases h
        · split at h
          · cases h
          · rename_i b e1 h1
            cases h
            exact fillSlice_err_not_mismatch _ _ _ _ _ h1
          · obtain ⟨vs, h2, -⟩ := Walk.cons_eq_fail h
            exact walk_fail_not_mismatch pf rest _ _ _ _ e h2
  | .cons fName exported cap (.basic k) rest, olds, record, j, vals, e, h => by
    rw [walk] at h
    split at h
    · cases h; rfl
    · split at h
      · cases h
      · split at h
        · cases h
        · rename_i e1 h1
          cases h
          simpa [Error.isLengthMismatch] using SetFieldWithValue_err_not_mismatch h1
        · obtain ⟨vs, h2, -⟩ := Walk.cons_eq_fail h
          exact walk_fail_not_mismatch pf rest _ _ _ _ e h2
  | .cons fName exported cap (.ptr el nm um) rest, olds, record, j, vals, e, h => by
    rw [walk] at h
    split at h
    · cases h; rfl
    · split at h
      · cases h
      · split at h
        · cases h
        · rename_i e1 h1
          cases h
          simpa [Error.isLengthMismatch] using SetFieldWithValue_err_not_mismatch h1
        · obtain ⟨vs, h2, -⟩ := Walk.cons_eq_fail h
          exact walk_fail_not_mismatch pf rest _ _ _ _ e h2

/-- No error that `DeepUnmarshal` returns is a length-mismatch error, at any
depth of wrapping. -/
theorem DeepUnmarshal_err_not_mismatch {pf : ParseFloatFn} {v dest : Iface}
    {record : List String} {e : Error}
    (h : DeepUnmarshal pf v record = .ret dest (some e)) : e.isLengthMismatch = false := by
  unfold DeepUnmarshal at h
  split at h
  · rename_i fs s
    cases hw : walk pf fs (fieldsOf s) record 0 with
    | done vals => rw [hw] at h; simp [Walk.toOutcome] at h
    | fail vals e1 =>
      rw [hw] at h
      simp only [Walk.toOutcome, Outcome.ret.injEq, Option.some.injEq] at h
      rw [← h.2]
      exact walk_fail_not_mismatch pf _ _ _ _ _ _ hw
    | panic p => rw [hw] at h; simp [Walk.toOutcome] at h
  · cases h; rfl

/-- C3.  Let `DeepCount` be defined on the destination type, with value `n`.
If the row read by `DeepUnmarshalCSV` has `n` tokens, no error the call
returns is a length-mismatch error; if it has any other number of tokens
(`n - 1` and `n + 1` included), the call returns the record-length-mismatch
error naming `n` and the actual length, and the destination is exactly as it
was before the call. -/
theorem C3_DeepUnmarshalCSV_checks_the_row_length (pf : ParseFloatFn) (fs : Fields)
    (s : Value) (record : List String) (n : Int)
    (hD : DeepCount (.struct fs) = .ok n) :
    ((record.length : Int) = n →
      ∀ dest e, DeepUnmarshalCSV pf (.ok record) (.pointer (.struct fs) (some s))
          = .ret dest (some e) → e.isLengthMismatch = false) ∧
    ((record.length : Int) ≠ n →
      DeepUnmarshalCSV pf (.ok record) (.pointer (.struct fs) (some s))
        = .ret (.pointer (.struct fs) (some s))
            (some (.recordLengthMismatch n record.length))) := by
  constructor
  · intro hlen dest e h
    simp only [DeepUnmarshalCSV, hD, hlen, ne_eq, not_true_eq_false, if_false] at h
    exact DeepUnmarshal_err_not_mismatch h
  · intro hlen
    have hlen2 : ¬ n = (record.length : Int) := fun h => hlen h.symm
    simp [DeepUnmarshalCSV, hD, hlen2]

/-- C3 at `scalarNestedRepeated`, whose count is 5: a row of 4 tokens and a
row of 6 tokens are rejected with the destination untouched, and at a row of
5 tokens the conclusion for equal lengths applies. -/
theorem C3_DeepUnmarshalCSV_witness :
    DeepCount (.struct scalarNestedRepeated) = .ok 5 ∧
    DeepUnmarshalCSV exampleParseFloat (.ok ["1", "2", "7", "8"])
        (.pointer (.struct scalarNestedRepeated) (some (zero (.struct scalarNestedRepeated))))
      = .ret (.pointer (.struct scalarNestedRepeated)
            (some (zero (.struct scalarNestedRepeated))))
          (some (.recordLengthMismatch 5 4)) ∧
    DeepUnmarshalCSV exampleParseFloat (.ok ["1", "2", "7", "8", "9", "10"])
        (.pointer (.struct scalarNestedRepeated) (some (zero (.struct scalarNestedRepeated))))
      = .ret (.pointer (.struct scalarNestedRepeated)
            (some (zero (.struct scalarNestedRepeated))))
          (some (.recordLengthMismatch 5 6)) ∧
    (∀ dest e, DeepUnmarshalCSV exampleParseFloat (.ok ["1", "2", "7", "8", "x"])
        (.pointer (.struct scalarNestedRepeated) (some (zero (.struct scalarNestedRepeated))))
      = .ret dest (some e) → e.isLengthMismatch = false) :=
  ⟨rfl,
    (C3_DeepUnmarshalCSV_checks_the_row_length exampleParseFloat scalarNestedRepeated
      (zero (.struct scalarNestedRepeated)) ["1", "2", "7", "8"] 5 rfl).2 (by decide),
    (C3_DeepUnmarshalCSV_checks_the_row_length exampleParseFloat scalarNestedRepeated
      (zero (.struct scalarNestedRepeated)) ["1", "2", "7", "8", "9", "10"] 5 rfl).2
      (by decide),
    (C3_DeepUnmarshalCSV_checks_the_row_length exampleParseFloat scalarNestedRepeated
      (zero (.struct scalarNestedRepeated)) ["1", "2", "7", "8", "x"] 5 rfl).1 rfl⟩

/-- C4 as stated fails.  `DeepUnmarshal` on `struct { A int; B int }` and the
single token "1" (one short of `DeepCount = 2`) returns no length-mismatch
error: it reads `record[1]` and panics with index out of range.  The same
happens one level down, in the recursive call for the nested record of
`struct { N struct { A int; B int } }`. -/
theorem C4_short_row_is_indexed_out_of_range :
    DeepCount (.struct twoScalars) = .ok 2 ∧
    DeepUnmarshal exampleParseFloat
        (.pointer (.struct twoScalars) (some (zero (.struct twoScalars)))) ["1"]
      = .panic .indexOutOfRange ∧
    DeepUnmarshal exampleParseFloat
        (.pointer (.struct nestedTwoScalars) (some (zero (.struct nestedTwoScalars)))) ["1"]
      = .panic .indexOutOfRange :=
  ⟨rfl, rfl, rfl⟩

/-- C4, amended.  `DeepUnmarshal` makes no length check, at the top level or
in a recursive call for a nested record: whatever the destination and the
token sequence, an error it returns is never a length-mismatch error, not even
wrapped in the error of an enclosing call.  The row length is checked once, by
`DeepUnmarshalCSV` before the walk: when it differs from `DeepCount`,
`DeepUnmarshalCSV` returns the record-length-mismatch error. -/
theorem C4_length_is_checked_only_by_DeepUnmarshalCSV (pf : ParseFloatFn) (v dest : Iface)
    (record : List String) (e : Error)
    (h : DeepUnmarshal pf v record = .ret dest (some e)) :
    e.isLengthMismatch = false ∧
    (∀ fs s n, v = .pointer (.struct fs) (some s) → DeepCount (.struct fs) = .ok n →
      (record.length : Int) ≠ n →
      DeepUnmarshalCSV pf (.ok record) v
        = .ret v (some (.recordLengthMismatch n record.length))) := by
  refine ⟨DeepUnmarshal_err_not_mismatch h, ?_⟩
  intro fs s n hv hD hlen
  subst hv
  have hlen2 : ¬ n = (record.length : Int) := fun h => hlen h.symm
  simp [DeepUnmarshalCSV, hD, hlen2]

/-- C4 at a call that returns an error: the nested record of
`struct { N struct { A int; B int } }` gets the tokens "1", "x", the error of
the recursive call comes back wrapped, and it is a parse error, not a
length-mismatch error. -/
theorem C4_length_check_witness :
    DeepUnmarshal exampleParseFloat
        (.pointer (.struct nestedTwoScalars) (some (zero (.struct nestedTwoScalars))))
        ["1", "x"]
      = .ret (.pointer (.struct nestedTwoScalars)
            (some (.struct [.struct [.int 1, .int 0]])))
          (some (.unmarshalError (.fieldSetError (.failedParsing "int" .ErrSyntax)))) ∧
    (Error.unmarshalError (.fieldSetError (.failedParsing "int" .ErrSyntax))).isLengthMismatch
      = false :=
  ⟨rfl,
    (C4_length_is_checked_only_by_DeepUnmarshalCSV exampleParseFloat
      (.pointer (.struct nestedTwoScalars) (some (zero (.struct nestedTwoScalars))))
      (.pointer (.struct nestedTwoScalars) (some (.struct [.struct [.int 1, .int 0]])))
      ["1", "x"] (.unmarshalError (.fieldSetError (.failedParsing "int" .ErrSyntax))) rfl).1⟩

/-! ## C8 : the empty token -/

/-- C8.  For every field of a signed integer, unsigned integer or float kind
the empty token stores the zero value and produces no error: in
`SetFieldWithValue`, in the step that `DeepUnmarshal` makes for a scalar field
(the walk goes on to the next field, one token further), and in the step of
`Decode`. -/
theorem C8_empty_token_is_zero (pf : ParseFloatFn) (k : Kind) (hk : isNumericKind k = true)
    (old : Value) (fName cap : String) (rest : Fields) (olds : List Value)
    (record : List String) (j : Int) (hj : index record j = some "") :
    SetFieldWithValue pf (.basic k) (.field old) "" = .ok (.field (zeroBasic k)) ∧
    walk pf (.cons fName true cap (.basic k) rest) olds record j
      = (walk pf rest olds.tail record (wrapInt (j + 1))).cons (zeroBasic k) ∧
    decodeFields pf (.cons fName true cap (.basic k) rest) olds ("" :: record)
      = (decodeFields pf rest olds.tail record).cons (zeroBasic k) := by
  have hc : coerce pf k "" = some (.ok (zeroBasic k)) := by
    cases k <;> first | (simp [isNumericKind, intKindToSize, uintKindToSize,
      floatKindToSize] at hk; done) | rfl
  have hset : ∀ o, SetFieldWithValue pf (.basic k) (.field o) ""
      = .ok (.field (zeroBasic k)) := by
    intro o
    simp [SetFieldWithValue, Ty.kind, hc, Target.set]
  refine ⟨hset old, ?_, ?_⟩
  · rw [walk]
    simp [hj, hset, Target.value]
  · rw [decodeFields]
    simp [Ty.kind, hc]
    intro _ _ _ h
    cases h

/-- C8 at an `int16` field with the row `[""]`. -/
theorem C8_empty_token_witness :
    SetFieldWithValue exampleParseFloat (.basic .Int16) (.field (.int 7)) ""
      = .ok (.field (.int 0)) ∧
    DeepUnmarshal exampleParseFloat
        (.pointer (.struct (scalarField "A" .Int16 .nil)) (some (.struct [.int 7]))) [""]
      = .ret (.pointer (.struct (scalarField "A" .Int16 .nil)) (some (.struct [.int 0]))) none :=
  ⟨(C8_empty_token_is_zero exampleParseFloat .Int16 rfl (.int 7) "A" "" .nil [.int 7]
      [""] 0 rfl).1, rfl⟩

/-! ## C7 : the flat decoder -/

theorem FlatValid_length (pf : ParseFloatFn) :
    ∀ (fs : Fields) (record : List String), FlatValid pf fs record →
      fs.length = record.length
  | .nil, [], _ => rfl
  | .nil, _ :: _, h => by simp [FlatValid] at h
  | .cons _ _ _ _ _, [], h => by simp [FlatValid] at h
  | .cons _ _ _ (.basic _) rest, _ :: toks, h => by
    simp only [FlatValid] at h
    simp [Fields.length, FlatValid_length pf rest toks h.2.2.2]
  | .cons _ _ _ (.struct _) _, _ :: _, h => by simp [FlatValid] at h
  | .cons _ _ _ (.slice _) _, _ :: _, h => by simp [FlatValid] at h
  | .cons _ _ _ (.ptr _ _ _) _, _ :: _, h => by simp [FlatValid] at h

/-- On a destination and a row that fit the flat decoder the loop of `Decode`
ends without error, every field holding the coercion of its token. -/
theorem decodeFields_of_FlatValid (pf : ParseFloatFn) :
    ∀ (fs : Fields) (record : List String) (olds : List Value), FlatValid pf fs record →
      ∃ vals, decodeFields pf fs olds record = .done vals ∧ FlatDecoded pf fs record vals
  | .nil, [], _, _ => ⟨[], rfl, trivial⟩
  | .nil, _ :: _, _, h => by simp [FlatValid] at h
  | .cons _ _ _ _ _, [], _, h => by simp [FlatValid] at h
  | .cons fName exported cap (.basic k) rest, tok :: toks, olds, h => by
    simp only [FlatValid] at h
    obtain ⟨hexp, -, ⟨v, hv⟩, hrest⟩ := h
    obtain ⟨vs, hvs, hdec⟩ := decodeFields_of_FlatValid pf rest toks olds.tail hrest
    refine ⟨v :: vs, ?_, ?_⟩
    · rw [decodeFields]
      · subst hexp
        simp only [not_true_eq_false, if_false, Ty.kind, hv, hvs, Walk.cons]
      · intro _ _ _ h
        cases h
    · simp only [FlatDecoded, Ty.kind]
      exact ⟨hv, hdec⟩
  | .cons _ _ _ (.struct _) _, _ :: _, _, h => by simp [FlatValid] at h
  | .cons _ _ _ (.slice _) _, _ :: _, _, h => by simp [FlatValid] at h
  | .cons _ _ _ (.ptr _ _ _) _, _ :: _, _, h => by simp [FlatValid] at h

/-- C7.  For every destination record whose fields are all (exported) scalar
fields and every row with one valid token per field, `Decode` returns `nil`
and leaves field `i` holding the coercion of token `i`, for every `i`,
whatever the fields held before. -/
theorem C7_Decode_sets_each_field_to_its_token (pf : ParseFloatFn) (fs : Fields)
    (record : List String) (s : Value) (h : FlatValid pf fs record) :
    ∃ vals, Decode pf (.ok record) (.pointer (.struct fs) (some s))
        = .ret (.pointer (.struct fs) (some (.struct vals))) none ∧
      FlatDecoded pf fs record vals := by
  obtain ⟨vals, hvals, hdec⟩ := decodeFields_of_FlatValid pf fs record (fieldsOf s) h
  refine ⟨vals, ?_, hdec⟩
  simp [Decode, FlatValid_length pf fs record h, hvals, Walk.toOutcome]

/-- C7 at the example of example_test.go: the rows `1, 2, 3, test` and
`4, 5, 6, another_test` decoded one after the other into the same
`struct { F1 int; F2 int; F3 float32; F4 string }` give `{1 2 3 test}` and
`{4 5 6 another_test}`. -/
theorem C7_Decode_example_witness :
    FlatValid exampleParseFloat exampleT ["1", "2", "3", "test"] ∧
    (∃ vals, Decode exampleParseFloat (.ok ["1", "2", "3", "test"])
        (.pointer (.struct exampleT) (some (zero (.struct exampleT))))
        = .ret (.pointer (.struct exampleT) (some (.struct vals))) none ∧
      FlatDecoded exampleParseFloat exampleT ["1", "2", "3", "test"] vals) ∧
    Decode exampleParseFloat (.ok ["1", "2", "3", "test"])
        (.pointer (.struct exampleT) (some (zero (.struct exampleT))))
      = .ret (.pointer (.struct exampleT)
          (some (.struct [.int 1, .int 2, .float 0x4008000000000000, .str "test"]))) none ∧
    Decode exampleParseFloat (.ok ["4", "5", "6", "another_test"])
        (.pointer (.struct exampleT)
          (some (.struct [.int 1, .int 2, .float 0x4008000000000000, .str "test"])))
      = .ret (.pointer (.struct exampleT)
          (some (.struct [.int 4, .int 5, .float 0x4018000000000000,
            .str "another_test"]))) none :=
  ⟨⟨rfl, rfl, ⟨_, rfl⟩, rfl, rfl, ⟨_, rfl⟩, rfl, rfl, ⟨_, rfl⟩, rfl, rfl, ⟨_, rfl⟩, trivial⟩,
    C7_Decode_sets_each_field_to_its_token exampleParseFloat exampleT
      ["1", "2", "3", "test"] (zero (.struct exampleT))
      ⟨rfl, rfl, ⟨_, rfl⟩, rfl, rfl, ⟨_, rfl⟩, rfl, rfl, ⟨_, rfl⟩, rfl, rfl, ⟨_, rfl⟩, trivial⟩,
    rfl, rfl⟩

/-! ## C9 : a repeated field without a usable count tag -/

theorem parseUintLoop_ok_digits (cutoff maxVal : Nat) :
    ∀ (cs : List Char) (n r : Nat), parseUintLoop cutoff maxVal cs n = .ok r →
      cs.all isDecimalDigit = true
  | [], _, _, _ => rfl
  | c :: cs, n, r, h => by
    rw [parseUintLoop] at h
    split at h
    · rename_i hd
      simp only at h
      split at h
      · cases h
      · split at h
        · cases h
        · have := parseUintLoop_ok_digits cutoff maxVal cs _ r h
          simp [List.all_cons, isDecimalDigit, hd.1, hd.2, this]
    · cases h

/-- A count tag that is not a base-10 integer is rejected by `ParseInt`. -/
theorem ParseInt_error_of_not_base10 (s : String) (bitSize : Nat)
    (h : isBase10Integer s = false) : ∃ e, ParseInt s bitSize = .error e := by
  unfold ParseInt
  unfold isBase10Integer at h
  cases hs : s.toList with
  | nil => exact ⟨_, rfl⟩
  | cons c cs =>
    rw [hs] at h
    simp only at h ⊢
    generalize (if c = '+' ∨ c = '-' then cs else c :: cs) = digits at h ⊢
    by_cases hne : digits = []
    · exact ⟨_, by rw [if_pos hne]⟩
    · rw [if_neg hne]
      split
      · exact ⟨_, rfl⟩
      · rename_i un hun
        have hall := parseUintLoop_ok_digits _ _ _ _ _ hun
        cases digits with
        | nil => exact absurd rfl hne
        | cons a as => rw [hall] at h; simp at h

/-- Every error of the loop of `DeepCount` is the count-tag error. -/
theorem countFields_err_isCapTagError :
    ∀ (fs : Fields) (count : Int) (e : Error), countFields fs count = .error e →
      e.isCapTagError = true
  | .nil, count, e, h => by simp [countFields] at h
  | .cons _ _ _ (.struct nfs) rest, count, e, h => by
    rw [countFields] at h
    split at h
    · rename_i e1 h1
      cases h
      exact countFields_err_isCapTagError nfs 0 e1 h1
    · exact countFields_err_isCapTagError rest _ e h
  | .cons _ _ cap (.slice _) rest, count, e, h => by
    rw [countFields] at h
    split at h
    · cases h; rfl
    · exact countFields_err_isCapTagError rest _ e h
  | .cons _ _ _ (.basic _) rest, count, e, h => by
    rw [countFields] at h
    exact countFields_err_isCapTagError rest _ e h
  | .cons _ _ _ (.ptr _ _ _) rest, count, e, h => by
    rw [countFields] at h
    exact countFields_err_isCapTagError rest _ e h

/-- The loop of `DeepCount` returns no count on a type with a bad count tag. -/
theorem countFields_not_ok_of_HasBadCap :
    ∀ (fs : Fields) (count n : Int), HasBadCap fs → countFields fs count ≠ .ok n
  | .nil, _, _, h => by simp [HasBadCap] at h
  | .cons _ _ _ (.struct nfs) rest, count, n, h => by
    intro hc
    rw [countFields] at hc
    split at hc
    · cases hc
    · rename_i c h1
      rcases h with h | h
      · exact countFields_not_ok_of_HasBadCap nfs 0 c h h1
      · exact countFields_not_ok_of_HasBadCap rest _ n h hc
  | .cons _ _ cap (.slice _) rest, count, n, h => by
    intro hc
    rw [countFields] at hc
    split at hc
    · cases hc
    · rename_i add h1
      rcases h with h | h
      · obtain ⟨e, he⟩ := ParseInt_error_of_not_base10 cap 0 h
        rw [he] at h1
        cases h1
      · exact countFields_not_ok_of_HasBadCap rest _ n h hc
  | .cons _ _ _ (.basic _) rest, count, n, h => by
    intro hc
    rw [countFields] at hc
    exact countFields_not_ok_of_HasBadCap rest _ n h hc
  | .cons _ _ _ (.ptr _ _ _) rest, count, n, h => by
    intro hc
    rw [countFields] at hc
    exact countFields_not_ok_of_HasBadCap rest _ n h hc

/-- C9.  On a destination type that contains, directly or through nested
records, a repeated field whose count tag is absent or is not a base-10
integer, `DeepCount` returns an error, the count-tag error, and no count; and
`DeepUnmarshalCSV`, whatever the reader gives it, returns an error and leaves
the destination as it was: after a successful read the error is the
"Count error" around the error of `DeepCount`. -/
theorem C9_bad_count_tag_fails_DeepCount (fs : Fields) (h : HasBadCap fs) :
    ∃ e, DeepCount (.struct fs) = .error e ∧ e.isCapTagError = true ∧
      (∀ (pf : ParseFloatFn) (s : Value) (record : List String),
        DeepUnmarshalCSV pf (.ok record) (.pointer (.struct fs) (some s))
          = .ret (.pointer (.struct fs) (some s)) (some (.countError e))) ∧
      (∀ (pf : ParseFloatFn) (s : Value) (read : Except Error (List String)),
        ∃ err, DeepUnmarshalCSV pf read (.pointer (.struct fs) (some s))
          = .ret (.pointer (.struct fs) (some s)) (some err)) := by
  cases hc : countFields fs 0 with
  | ok n => exact absurd hc (countFields_not_ok_of_HasBadCap fs 0 n h)
  | error e =>
    have hD : DeepCount (.struct fs) = .error e := by simp [DeepCount, hc]
    refine ⟨e, hD, countFields_err_isCapTagError fs 0 e hc, ?_, ?_⟩
    · intro pf s record
      simp [DeepUnmarshalCSV, hD]
    · intro pf s read
      cases read with
      | error e1 => exact ⟨e1, by simp [DeepUnmarshalCSV]⟩
      | ok record => exact ⟨.countError e, by simp [DeepUnmarshalCSV, hD]⟩

/-- C9 at `struct { A int; N struct { R []int } }`, where the repeated field
of the nested record has no tag. -/
theorem C9_bad_count_tag_witness :
    HasBadCap nestedUntagged ∧
    DeepCount (.struct nestedUntagged)
      = .error (.countingError (.capTagError .ErrSyntax 0 "")) ∧
    ∃ e, DeepCount (.struct nestedUntagged) = .error e ∧ e.isCapTagError = true ∧
      (∀ (pf : ParseFloatFn) (s : Value) (record : List String),
        DeepUnmarshalCSV pf (.ok record) (.pointer (.struct nestedUntagged) (some s))
          = .ret (.pointer (.struct nestedUntagged) (some s)) (some (.countError e))) ∧
      (∀ (pf : ParseFloatFn) (s : Value) (read : Except Error (List String)),
        ∃ err, DeepUnmarshalCSV pf read (.pointer (.struct nestedUntagged) (some s))
          = .ret (.pointer (.struct nestedUntagged) (some s)) (some err)) :=
  ⟨Or.inl (Or.inl rfl), rfl,
    C9_bad_count_tag_fails_DeepCount nestedUntagged (Or.inl (Or.inl rfl))⟩

/-! ## C10 : a field of unrecognized kind -/

/-- On a type of unrecognized kind `SetFieldWithValue` returns the error
"don't know how to decode field" and writes nothing. -/
theorem SetFieldWithValue_of_Unrecognized (pf : ParseFloatFn) (ft : Ty) (f : Target)
    (tok : String) (hU : Unrecognized ft) :
    SetFieldWithValue pf ft f tok = .err (.dontKnow ft.name ft.kind) := by
  cases ft with
  | basic k =>
    obtain ⟨hs, h1, -, -⟩ := hU
    have hc : coerce pf k tok = none := by
      cases k <;> first
        | (simp [isScalarKind, isNumericKind, intKindToSize, uintKindToSize,
            floatKindToSize] at hs; done)
        | rfl
    simp [SetFieldWithValue, Ty.kind, hc, h1]
  | struct fs => exact absurd hU (by simp [Unrecognized])
  | slice e => exact absurd hU (by simp [Unrecognized])
  | ptr e n u =>
    have hc : coerce pf .Pointer tok = none := rfl
    simp [SetFieldWithValue, Ty.kind, hc]

/-- The step of the walk at an exported field of unrecognized kind, with a
token at the cursor: the walk ends with an error and the field values are as
they were on entry to the step. -/
theorem walk_at_Unrecognized (pf : ParseFloatFn) (fName cap : String) (ft : Ty)
    (rest : Fields) (olds : List Value) (record : List String) (j : Int) (tok : String)
    (hU : Unrecognized ft) (hj : index record j = some tok) :
    walk pf (.cons fName true cap ft rest) olds record j
      = .fail olds (.fieldSetError (.dontKnow ft.name ft.kind)) := by
  cases ft with
  | basic k =>
    rw [walk]
    simp [hj, SetFieldWithValue_of_Unrecognized pf (.basic k) _ tok hU]
  | struct fs => exact absurd hU (by simp [Unrecognized])
  | slice e => exact absurd hU (by simp [Unrecognized])
  | ptr e n u =>
    rw [walk]
    simp [hj, SetFieldWithValue_of_Unrecognized pf (.ptr e n u) _ tok hU]

/-- The walk over a type with a field of unrecognized kind never ends without
error. -/
theorem walk_not_done_of_HasUnrecognized (pf : ParseFloatFn) :
    ∀ (fs : Fields) (olds : List Value) (record : List String) (j : Int)
      (vals : List Value), HasUnrecognized fs → walk pf fs olds record j ≠ .done vals
  | .nil, _, _, _, _, h => by simp [HasUnrecognized] at h
  | .cons fName exported cap (.struct nfs) rest, olds, record, j, vals, h => by
    intro hw
    rw [walk] at hw
    split at hw
    · cases hw
    · split at hw
      · cases hw
      · split at hw
        · cases hw
        · cases hw
        · rename_i nvals h1
          split at hw
          · cases hw
          · obtain ⟨vs, h2, -⟩ := Walk.cons_eq_done hw
            rcases h with h | h
            · exact walk_not_done_of_HasUnrecognized pf nfs _ _ _ _ h h1
            · exact walk_not_done_of_HasUnrecognized pf rest _ _ _ _ h h2
  | .cons fName exported cap (.slice elem) rest, olds, record, j, vals, h => by
    intro hw
    rw [walk] at hw
    split at hw
    · cases hw
    · split at hw
      · cases hw
      · split at hw
        · cases hw
        · split at hw
          · cases hw
          · cases hw
          · obtain ⟨vs, h2, -⟩ := Walk.cons_eq_done hw
            exact walk_not_done_of_HasUnrecognized pf rest _ _ _ _ h h2
  | .cons fName exported cap (.basic k) rest, olds, record, j, vals, h => by
    intro hw
    rw [walk] at hw
    split at hw
    · cases hw
    · split at hw
      · cases hw
      · rename_i tok htok
        rcases h with h | h
        · rw [SetFieldWithValue_of_Unrecognized pf (.basic k) _ tok h] at hw
          cases hw
        · split at hw
          · cases hw
          · cases hw
          · obtain ⟨vs, h2, -⟩ := Walk.cons_eq_done hw
            exact walk_not_done_of_HasUnrecognized pf rest _ _ _ _ h h2
  | .cons fName exported cap (.ptr el nm um) rest, olds, record, j, vals, _ => by
    intro hw
    rw [walk] at hw
    split at hw
    · cases hw
    · split at hw
      · cases hw
      · rename_i tok htok
        rw [SetFieldWithValue_of_Unrecognized pf (.ptr el nm um) _ tok trivial] at hw
        cases hw

/-- C10 as stated fails.  On `struct { B bool }` and the empty token sequence
the walk reaches the field of unrecognized kind and `DeepUnmarshal` returns no
error: `record[0]` (decode.go:218) panics with index out of range.  The same
happens through `DeepUnmarshalCSV` on a row of the checked length
`DeepCount = 2`, for `struct { N struct { X int }; B bool }` and the row
`1, x`, where the cursor reaches the `bool` field as 2. -/
theorem C10_unrecognized_kind_without_token_panics :
    DeepUnmarshal exampleParseFloat
        (.pointer (.struct oneBool) (some (zero (.struct oneBool)))) []
      = .panic .indexOutOfRange ∧
    DeepCount (.struct nestedThenBool) = .ok 2 ∧
    DeepUnmarshalCSV exampleParseFloat (.ok ["1", "x"])
        (.pointer (.struct nestedThenBool) (some (zero (.struct nestedThenBool))))
      = .panic .indexOutOfRange :=
  ⟨rfl, rfl, rfl⟩

/-- C10, amended.  When the walk of `DeepUnmarshal` stands at a (settable)
field of unrecognized kind and the row has a token at the cursor, the walk
ends there with the error "Field set error" around "don't know how to decode
field": neither that field nor any later field is written.  And whatever the
row and the cursor, the field is never skipped: on a destination type that has
a field of unrecognized kind, directly or in a nested record, `DeepUnmarshal`
never returns `nil`. -/
theorem C10_unrecognized_kind_stops_the_walk (pf : ParseFloatFn) (fName cap : String)
    (ft : Ty) (rest : Fields) (olds : List Value) (record : List String) (j : Int)
    (tok : String) (hU : Unrecognized ft) (hj : index record j = some tok) :
    walk pf (.cons fName true cap ft rest) olds record j
      = .fail olds (.fieldSetError (.dontKnow ft.name ft.kind)) ∧
    (∀ (fs : Fields) (s : Value) (row : List String) (dest : Iface), HasUnrecognized fs →
      DeepUnmarshal pf (.pointer (.struct fs) (some s)) row ≠ .ret dest none) := by
  refine ⟨walk_at_Unrecognized pf fName cap ft rest olds record j tok hU hj, ?_⟩
  intro fs s row dest hfs h
  unfold DeepUnmarshal at h
  simp only at h
  cases hw : walk pf fs (fieldsOf s) row 0 with
  | done vals => exact walk_not_done_of_HasUnrecognized pf fs _ _ _ _ hfs hw
  | fail vals e => rw [hw] at h; simp [Walk.toOutcome] at h
  | panic p => rw [hw] at h; simp [Walk.toOutcome] at h

/-- C10 at `struct { A int; B bool; C int }` and the row `1, true, 3`: the
walk stands at `B` with the cursor at 1, the call returns the error, `A` holds
1, and `B` and `C` are as before. -/
theorem C10_unrecognized_kind_witness :
    Unrecognized (.basic .Bool) ∧
    walk exampleParseFloat (scalarField "B" .Bool (scalarField "C" .Int .nil))
        [.bool false, .int 0] ["1", "true", "3"] 1
      = .fail [.bool false, .int 0] (.fieldSetError (.dontKnow "bool" .Bool)) ∧
    DeepUnmarshal exampleParseFloat
        (.pointer (.struct scalarBoolScalar) (some (zero (.struct scalarBoolScalar))))
        ["1", "true", "3"]
      = .ret (.pointer (.struct scalarBoolScalar)
            (some (.struct [.int 1, .bool false, .int 0])))
          (some (.fieldSetError (.dontKnow "bool" .Bool))) :=
  ⟨⟨rfl, by decide, by decide, by decide⟩,
    (C10_unrecognized_kind_stops_the_walk exampleParseFloat "B" "" (.basic .Bool)
      (scalarField "C" .Int .nil) [.bool false, .int 0] ["1", "true", "3"] 1 "true"
      ⟨rfl, by decide, by decide, by decide⟩ rfl).1,
    rfl⟩

/-! ## C5 : a repeated field -/

theorem index_natCast (record : List String) (n : Nat) : index record (n : Int) = record[n]? := by
  simp [index]

/-- One element of a repeated field of `int`, `string` or `interface{}`
elements: what the slice branch appends is written at offset `n` of the
field's slice. -/
theorem SetFieldWithValue_window (pf : ParseFloatFn) (elem : Kind) (backing : List Value)
    (n : Nat) (tok : String) (v : Value) (hv : appendedElem elem tok = some v) :
    SetFieldWithValue pf (.slice (.basic elem)) (.window backing n) tok
      = .ok (.window (backing.set n v) n) := by
  have hc : coerce pf .Slice tok = none := rfl
  cases elem <;> simp only [appendedElem] at hv <;> try (cases hv; done)
  · cases hp : ParseInt tok 0 with
    | error e => rw [hp] at hv; cases hv
    | ok i =>
      rw [hp] at hv
      cases hv
      simp [SetFieldWithValue, Ty.kind, hc, hp, Target.append]
  · cases hv
    simp [SetFieldWithValue, Ty.kind, hc, Target.append]
  · cases hv
    simp [SetFieldWithValue, Ty.kind, hc, Target.append]

/-- The loop over the elements of a repeated field, from element `n` on with
`rem` elements to go, all of whose tokens are in the row and accepted by the
slice branch: it ends without error, the elements before `n` and from
`n + rem` on are untouched, and element `i` in between is what the slice
branch appends for `record[j+i]`. -/
theorem fillSlice_ok (pf : ParseFloatFn) (elem : Kind) (fName : String)
    (record : List String) (j : Nat) (hrow : record.length < 2 ^ 63) :
    ∀ (rem n : Nat) (backing : List Value), n + rem ≤ backing.length →
      (∀ i, n ≤ i → i < n + rem →
        ∃ tok v, record[j + i]? = some tok ∧ appendedElem elem tok = some v) →
      ∃ b, fillSlice pf (.slice (.basic elem)) fName record j rem n backing = .ok b ∧
        b.length = backing.length ∧
        (∀ i, i < n → b[i]? = backing[i]?) ∧
        (∀ i, n ≤ i → i < n + rem →
          ∃ tok, record[j + i]? = some tok ∧ appendedElem elem tok = b[i]?)
  | 0, n, backing, _, _ =>
    ⟨backing, rfl, rfl, fun _ _ => rfl, fun i h1 h2 => absurd h2 (by omega)⟩
  | rem + 1, n, backing, hlen, htok => by
    obtain ⟨tok, v, htk, hv⟩ := htok n (le_refl n) (by omega)
    have hlt : j + n < record.length := by
      rcases List.getElem?_eq_some.mp htk with ⟨h, -⟩
      exact h
    have hidx : index record (wrapInt ((j : Int) + (n : Int))) = some tok := by
      have hw : wrapInt ((j : Int) + (n : Int)) = ((j + n : Nat) : Int) := by
        rw [wrapInt_of_range (by omega) (by omega)]
        push_cast
        rfl
      rw [hw, index_natCast, htk]
    obtain ⟨b, hb, hblen, hbpre, hbmid⟩ :=
      fillSlice_ok pf elem fName record j hrow rem (n + 1) (backing.set n v)
        (by simp only [List.length_set]; omega)
        (fun i h1 h2 => htok i (by omega) (by omega))
    refine ⟨b, ?_, ?_, ?_, ?_⟩
    · rw [fillSlice]
      simp only [hidx, SetFieldWithValue_window pf elem backing n tok v hv, Target.elems]
      exact hb
    · rw [hblen, List.length_set]
    · intro i hi
      rw [hbpre i (by omega), List.getElem?_set_ne (by omega)]
    · intro i h1 h2
      rcases Nat.eq_or_lt_of_le h1 with h | h
      · subst h
        refine ⟨tok, htk, ?_⟩
        rw [hv, hbpre n (by omega), List.getElem?_set_self (by omega)]
      · exact hbmid i (by omega) (by omega)

/-- The step of the walk at an exported repeated field of `k` elements of type
`int`, `string` or `interface{}`, all of whose tokens are in the row and
accepted by the slice branch. -/
theorem walk_at_repeated (pf : ParseFloatFn) (fName cap : String) (elem : Kind)
    (rest : Fields) (olds : List Value) (record : List String) (j k : Nat)
    (hcap : ParseInt cap 0 = .ok (k : Int))
    (hrow : record.length < 2 ^ 63) (hj : j < 2 ^ 63)
    (htok : ∀ n, n < k → ∃ tok v, record[j + n]? = some tok ∧ appendedElem elem tok = some v) :
    ∃ vals, walk pf (.cons fName true cap (.slice (.basic elem)) rest) olds record j
        = (walk pf rest olds.tail record ((j + k : Nat) : Int)).cons (.slice vals) ∧
      vals.length = k ∧
      ∀ n, n < k → ∃ tok, record[j + n]? = some tok ∧ appendedElem elem tok = vals[n]? := by
  obtain ⟨b, hb, hblen, -, hbmid⟩ :=
    fillSlice_ok pf elem fName record j hrow k 0 (List.replicate k (zero (.basic elem)))
      (by simp) (fun i _ h2 => htok i (by omega))
  have hk : j + k < 2 ^ 63 := by
    rcases Nat.eq_zero_or_pos k with h | h
    · omega
    · obtain ⟨tok, v, htk, -⟩ := htok (k - 1) (by omega)
      rcases List.getElem?_eq_some.mp htk with ⟨h2, -⟩
      omega
  have hcur : wrapInt (wrapInt ((j : Int) + wrapInt ((k : Int) - 1)) + 1)
      = ((j + k : Nat) : Int) := by
    rw [wrapInt_of_range (x := (k : Int) - 1) (by omega) (by omega),
      wrapInt_of_range (x := (j : Int) + ((k : Int) - 1)) (by omega) (by omega),
      wrapInt_of_range (by omega) (by omega)]
    push_cast
    omega
  refine ⟨b, ?_, by simpa using hblen, fun n hn => hbmid n (Nat.zero_le n) (by omega)⟩
  rw [walk]
  simp only [not_true_eq_false, if_false, hcap]
  have hneg : ¬ ((k : Int) < 0) := by omega
  simp only [hneg, if_false, Int.toNat_ofNat, hb, hcur]

/-- A token that `ParseInt(s, 10, 0)` accepts denotes a value of `int`. -/
theorem ParseInt_ok_range {s : String} {i : Int} (h : ParseInt s 0 = .ok i) :
    -(2 ^ 63) ≤ i ∧ i < 2 ^ 63 := by
  unfold ParseInt at h
  split at h
  · cases h
  · rename_i c cs _
    simp only [IntSize, if_true] at h
    generalize (if c = '+' ∨ c = '-' then cs else c :: cs) = digits at h
    by_cases hd : digits = []
    · simp [hd] at h
    · simp only [hd, if_false] at h
      cases hu : parseUintLoop ((2 ^ 64 - 1) / 10 + 1) (2 ^ 64 - 1) digits 0 with
      | error e => rw [hu] at h; cases h
      | ok un =>
        rw [hu] at h
        simp only at h
        by_cases hn : c = '-'
        · simp only [hn, not_true_eq_false, false_and, if_false, true_and, if_true] at h
          split at h
          · cases h
          · rename_i h1
            simp only [Except.ok.injEq] at h
            subst h
            norm_num at h1
            omega
        · simp only [hn, not_false_eq_true, true_and, false_and, if_false] at h
          split at h
          · cases h
          · rename_i h1
            simp only [Except.ok.injEq] at h
            subst h
            norm_num at h1
            omega
/-- For an element of type `int` or `string` the slice branch and the scalar
coercer agree on every valid token but one: the empty token of an `int`
element, which the scalar coercer turns into 0 and the slice branch hands to
`ParseInt`. -/
theorem coerce_iff_appendedElem (pf : ParseFloatFn) {e : Kind} {tok : String} (v : Value)
    (he : e = .Int ∨ e = .String) (hne : e = .Int → tok ≠ "") :
    coerce pf e tok = some (.ok v) ↔ appendedElem e tok = some v := by
  rcases he with he | he
  · have hne1 : (tok != "") = true := by simpa using hne he
    subst he
    simp only [coerce, intKindToSize, appendedElem, hne1, if_true]
    cases hp : ParseInt tok 0 with
    | error c => simp
    | ok i =>
      obtain ⟨h1, h2⟩ := ParseInt_ok_range hp
      have hw : wrapSigned (storeBits 0) i = i := wrapInt_of_range h1 h2
      simp [hw]
  · subst he
    simp [coerce, intKindToSize, uintKindToSize, floatKindToSize, appendedElem]

/-- C5, evaluated at a failing input.  With the declared count 3 and the
tokens `7, 8, 9` the field of `struct { R []int "cap:3" }` becomes `[7 8 9]`.
The tokens `7`, the empty token and `9` are three valid tokens for an `int` as
well: the scalar coercer turns them into 7, 0 and 9.  On the row `7, "", 9`
`DeepUnmarshal` nevertheless does not set the field to `[7 0 9]`: it returns
"Error setting slice" at element 1 and leaves `[7 0 0]`, because the slice
branch of `SetFieldWithValue` parses an `int` element without the guard for
the empty token that the scalar branches have (decode.go:302 against
decode.go:271).  The empty token of an `int` element is the only case in
which the claim fails: for a repeated field of declared count `k` of `int` or
`string` elements and a cursor `j` with `k` valid tokens at `j .. j+k-1`,
those of an `int` element not empty, `DeepUnmarshal` sets the field to a
sequence of length exactly `k` whose element `n` is the coercion of
`record[j+n]`, whatever the field held before, and goes on to the next field
with the cursor at `j + k`.  (The cursor is an `int` and the row a Go slice:
both are below `2^63`.) -/
theorem C5_valid_empty_token_stops_a_repeated_int_field (pf : ParseFloatFn) :
    DeepUnmarshal pf (.pointer (.struct oneRepeated) (some (.struct [.slice []])))
        ["7", "8", "9"]
      = .ret (.pointer (.struct oneRepeated)
          (some (.struct [.slice [.int 7, .int 8, .int 9]]))) none ∧
    (coerce pf .Int "7" = some (.ok (.int 7)) ∧ coerce pf .Int "" = some (.ok (.int 0)) ∧
      coerce pf .Int "9" = some (.ok (.int 9))) ∧
    DeepUnmarshal pf (.pointer (.struct oneRepeated) (some (.struct [.slice []])))
        ["7", "", "9"]
      = .ret (.pointer (.struct oneRepeated)
            (some (.struct [.slice [.int 7, .int 0, .int 0]])))
          (some (.settingSlice (.failedParsing "" .ErrSyntax) "R" 0 1)) ∧
    (∀ (fName cap : String) (elem : Kind) (rest : Fields) (olds : List Value)
        (record : List String) (j k : Nat),
      (elem = .Int ∨ elem = .String) →
      ParseInt cap 0 = .ok (k : Int) →
      record.length < 2 ^ 63 → j < 2 ^ 63 →
      (∀ n, n < k → ∃ tok v, record[j + n]? = some tok ∧
        coerce pf elem tok = some (.ok v) ∧ (elem = .Int → tok ≠ "")) →
      ∃ vals, walk pf (.cons fName true cap (.slice (.basic elem)) rest) olds record j
          = (walk pf rest olds.tail record ((j + k : Nat) : Int)).cons (.slice vals) ∧
        vals.length = k ∧
        ∀ n, n < k → ∃ tok v, record[j + n]? = some tok ∧
          coerce pf elem tok = some (.ok v) ∧ vals[n]? = some v) := by
  refine ⟨rfl, ⟨rfl, rfl, rfl⟩, rfl, ?_⟩
  intro fName cap elem rest olds record j k he hcap hrow hj htok
  obtain ⟨vals, hw, hlen, hpt⟩ :=
    walk_at_repeated pf fName cap elem rest olds record j k hcap hrow hj
      (fun n hn => by
        obtain ⟨tok, v, htk, hv, hne⟩ := htok n hn
        exact ⟨tok, v, htk, (coerce_iff_appendedElem pf v he hne).mp hv⟩)
  refine ⟨vals, hw, hlen, fun n hn => ?_⟩
  obtain ⟨tok, v, htk, hv, hne⟩ := htok n hn
  obtain ⟨tok1, htk1, hc⟩ := hpt n hn
  rw [htk] at htk1
  cases htk1
  exact ⟨tok, v, htk, hv, by rw [← hc, (coerce_iff_appendedElem pf v he hne).mp hv]⟩

/-! ## C6 : the example of the recursive decoder -/

theorem CapsNumeric_of_ExampleShaped :
    ∀ (fs : Fields), ExampleShaped fs → CapsNumeric fs
  | .nil, _ => trivial
  | .cons _ _ _ (.struct nfs) rest, h => by
    obtain ⟨-, hr, hn⟩ := h
    subst hr
    exact ⟨CapsNumeric_of_ExampleShaped nfs hn, trivial⟩
  | .cons _ _ cap (.slice (.basic e)) rest, h => by
    obtain ⟨-, -, ⟨k, hk⟩, hr⟩ := h
    exact ⟨⟨k, hk⟩, CapsNumeric_of_ExampleShaped rest hr⟩
  | .cons _ _ _ (.slice (.struct _)) _, h => by simp [ExampleShaped] at h
  | .cons _ _ _ (.slice (.slice _)) _, h => by simp [ExampleShaped] at h
  | .cons _ _ _ (.slice (.ptr _ _ _)) _, h => by simp [ExampleShaped] at h
  | .cons _ _ _ (.basic _) rest, h => CapsNumeric_of_ExampleShaped rest h.2.2
  | .cons _ _ _ (.ptr _ _ _) _, h => by simp [ExampleShaped] at h

/-- A value that the scalar coercer produces is a leaf. -/
theorem leaves_of_coerce {pf : ParseFloatFn} {k : Kind} {tok : String} {v : Value}
    (h : coerce pf k tok = some (.ok v)) : leaves v = [v] := by
  unfold coerce at h
  split at h
  · simp only [Option.some.injEq] at h
    split at h
    · cases h
    · cases h; simp [leaves]
  · split at h
    · simp only [Option.some.injEq] at h
      split at h
      · cases h
      · cases h; simp [leaves]
    · split at h
      · simp only [Option.some.injEq] at h
        split at h
        · cases h
        · cases h; simp [leaves]
      · split at h
        · cases h; simp [leaves]
        · cases h

/-- A value that the slice branch appends is a leaf. -/
theorem leaves_of_appendedElem {elem : Kind} {tok : String} {v : Value}
    (h : appendedElem elem tok = some v) : leaves v = [v] := by
  unfold appendedElem at h
  split at h
  · split at h
    · cases h; simp [leaves]
    · cases h
  · cases h; simp [leaves]
  · cases h; simp [leaves]
  · cases h

theorem leavesList_of_leaves :
    ∀ (vs : List Value), (∀ v ∈ vs, leaves v = [v]) → leavesList vs = vs
  | [], _ => by simp [leavesList]
  | v :: vs, h => by
    rw [leavesList, h v (List.mem_cons_self _ _),
      leavesList_of_leaves vs (fun w hw => h w (List.mem_cons_of_mem _ hw))]
    rfl

/-- The scalar step of the walk with a valid token at the cursor. -/
theorem walk_at_scalar (pf : ParseFloatFn) (fName cap : String) (k : Kind)
    (rest : Fields) (olds : List Value) (record : List String) (j : Nat) (tok : String)
    (v : Value) (hrow : record.length < 2 ^ 63) (htk : record[j]? = some tok)
    (hv : coerce pf k tok = some (.ok v)) :
    walk pf (.cons fName true cap (.basic k) rest) olds record j
      = (walk pf rest olds.tail record ((j + 1 : Nat) : Int)).cons v := by
  have hlt : j < record.length := by
    rcases List.getElem?_eq_some.mp htk with ⟨h, -⟩
    exact h
  have hcur : wrapInt ((j : Int) + 1) = ((j + 1 : Nat) : Int) := by
    rw [wrapInt_of_range (by omega) (by omega)]
    push_cast
    rfl
  rw [walk]
  simp [index_natCast, htk, SetFieldWithValue, Ty.kind, hv, Target.set, Target.value, hcur]

theorem Leaf.coerce_scalar {pf : ParseFloatFn} {k : Kind} {tok : String} {v : Value}
    (h : Leaf.coerce pf (.scalar k) tok = some v) : Csv.coerce pf k tok = some (.ok v) := by
  simp only [Leaf.coerce] at h
  split at h
  · rename_i w hw
    cases h
    exact hw
  · cases h

theorem Leaf.coerce_elem {pf : ParseFloatFn} {k : Kind} {tok : String} {v : Value} :
    Leaf.coerce pf (.elem k) tok = some v ↔ Csv.coerce pf k tok = some (.ok v) := by
  simp only [Leaf.coerce]
  constructor
  · intro h
    split at h
    · rename_i w hw
      cases h
      exact hw
    · cases h
  · intro h
    rw [h]

theorem declaredCount_of_ParseInt {cap : String} {k : Nat}
    (h : ParseInt cap 0 = .ok (k : Int)) : declaredCount cap = k := by
  simp [declaredCount, h, Except.toOption]

/-- The walk over a type shaped like the example's, from a cursor `j` in the
row at which every leaf of the type finds a valid token, that of an `int`
element not empty: it ends without error, and the leaves of the field values
are the coerced tokens, in order. -/
theorem walk_of_ExampleShaped (pf : ParseFloatFn) :
    ∀ (fs : Fields) (olds : List Value) (record : List String) (j : Nat),
      ExampleShaped fs → record.length < 2 ^ 63 → j ≤ record.length →
      (∀ p l, (leavesOf fs)[p]? = some l →
        ∃ tok v, record[j + p]? = some tok ∧ l.coerce pf tok = some v ∧
          (l = .elem .Int → tok ≠ "")) →
      ∃ vals, walk pf fs olds record j = .done vals ∧
        (leavesList vals).length = (leavesOf fs).length ∧
        ∀ p l, (leavesOf fs)[p]? = some l →
          ∃ tok, record[j + p]? = some tok ∧ l.coerce pf tok = (leavesList vals)[p]?
  | .nil, olds, record, j, _, _, _, _ =>
    ⟨[], rfl, rfl, fun p l h => by simp [leavesOf] at h⟩
  | .cons fName exported cap (.basic k) rest, olds, record, j, hs, hrow, hj, htok => by
    obtain ⟨hexp, -, hrest⟩ := hs
    subst hexp
    obtain ⟨tok, v, htk, hv, -⟩ := htok 0 (.scalar k) (by simp [leavesOf])
    have hc := Leaf.coerce_scalar hv
    have hlt : j < record.length := by
      rcases List.getElem?_eq_some.mp htk with ⟨h, -⟩
      exact h
    obtain ⟨vs, hvs, hlen, hpt⟩ :=
      walk_of_ExampleShaped pf rest olds.tail record (j + 1) hrest hrow (by omega)
        (fun p l hl => by
          have := htok (p + 1) l (by simpa [leavesOf] using hl)
          rwa [show j + (p + 1) = j + 1 + p by omega] at this)
    refine ⟨v :: vs, ?_, ?_, ?_⟩
    · rw [walk_at_scalar pf fName cap k rest olds record j tok v hrow htk hc, hvs]
      rfl
    · simp [leavesList, leaves_of_coerce hc, leavesOf, hlen]
    · intro p l hl
      cases p with
      | zero =>
        simp only [leavesOf, List.getElem?_cons_zero, Option.some.injEq] at hl
        subst hl
        exact ⟨tok, htk, by simp [leavesList, leaves_of_coerce hc, hv]⟩
      | succ p =>
        simp only [leavesOf, List.getElem?_cons_succ] at hl
        obtain ⟨tok', htk', hv'⟩ := hpt p l hl
        refine ⟨tok', by rwa [show j + (p + 1) = j + 1 + p by omega], ?_⟩
        simp [leavesList, leaves_of_coerce hc, hv']
  | .cons fName exported cap (.slice (.basic e)) rest, olds, record, j, hs, hrow, hj,
      htok => by
    obtain ⟨hexp, he, ⟨k, hk⟩, hrest⟩ := hs
    subst hexp
    have hdc := declaredCount_of_ParseInt hk
    have hleaves : leavesOf (.cons fName true cap (.slice (.basic e)) rest)
        = List.replicate k (.elem e) ++ leavesOf rest := by
      simp [leavesOf, hdc]
    rw [hleaves] at htok ⊢
    have htok0 : ∀ n, n < k →
        ∃ tok v, record[j + n]? = some tok ∧ coerce pf e tok = some (.ok v) ∧
          (e = .Int → tok ≠ "") := by
      intro n hn
      obtain ⟨tok, v, htk, hv, hne⟩ := htok n (.elem e) (by
        rw [List.getElem?_append_left (by simpa using hn)]
        simp [hn])
      exact ⟨tok, v, htk, Leaf.coerce_elem.mp hv, fun h => hne (by rw [h])⟩
    have htok1 : ∀ n, n < k →
        ∃ tok v, record[j + n]? = some tok ∧ appendedElem e tok = some v := by
      intro n hn
      obtain ⟨tok, v, htk, hv, hne⟩ := htok0 n hn
      exact ⟨tok, v, htk, (coerce_iff_appendedElem pf v he hne).mp hv⟩
    have hjk : j + k ≤ record.length := by
      rcases Nat.eq_zero_or_pos k with h | h
      · omega
      · obtain ⟨tok, v, htk, -⟩ := htok1 (k - 1) (by omega)
        rcases List.getElem?_eq_some.mp htk with ⟨h2, -⟩
        omega
    obtain ⟨b, hb, hblen, hbpt⟩ :=
      walk_at_repeated pf fName cap e rest olds record j k hk hrow (by omega) htok1
    obtain ⟨vs, hvs, hlen, hpt⟩ :=
      walk_of_ExampleShaped pf rest olds.tail record (j + k) hrest hrow hjk
        (fun p l hl => by
          have := htok (k + p) l (by
            rw [List.getElem?_append_right (by simp)]
            simpa using hl)
          rwa [show j + (k + p) = j + k + p by omega] at this)
    have hbleaf : leavesList b = b := by
      apply leavesList_of_leaves
      intro v hv
      obtain ⟨n, hn⟩ := List.mem_iff_getElem?.mp hv
      have hnk : n < k := by
        rcases List.getElem?_eq_some.mp hn with ⟨h, -⟩
        omega
      obtain ⟨tok, -, hc⟩ := hbpt n hnk
      rw [hn] at hc
      exact leaves_of_appendedElem hc
    have hll : leavesList (.slice b :: vs) = b ++ leavesList vs := by
      simp [leavesList, leaves, hbleaf]
    refine ⟨.slice b :: vs, ?_, ?_, ?_⟩
    · rw [hb, hvs]
      rfl
    · rw [hll]
      simp [hblen, hlen]
    · intro p l hl
      rw [hll]
      rcases Nat.lt_or_ge p k with hp | hp
      · rw [List.getElem?_append_left (by simpa using hp)] at hl
        simp only [List.getElem?_replicate_of_lt hp, Option.some.injEq] at hl
        subst hl
        obtain ⟨tok, htk, hc⟩ := hbpt p hp
        obtain ⟨tok0, v, htk0, hv, hne⟩ := htok0 p hp
        rw [htk] at htk0
        cases htk0
        refine ⟨tok, htk, ?_⟩
        rw [List.getElem?_append_left (by omega), ← hc,
          (coerce_iff_appendedElem pf v he hne).mp hv]
        exact Leaf.coerce_elem.mpr hv
      · rw [List.getElem?_append_right (by simpa using hp)] at hl
        simp only [List.length_replicate] at hl
        obtain ⟨tok, htk, hc⟩ := hpt (p - k) l hl
        refine ⟨tok, by rwa [show j + p = j + k + (p - k) by omega], ?_⟩
        rw [List.getElem?_append_right (by omega), hblen]
        exact hc
  | .cons fName exported cap (.struct nfs) rest, olds, record, j, hs, hrow, hj, htok => by
    obtain ⟨hexp, hnil, hn⟩ := hs
    subst hexp hnil
    have hleaves : leavesOf (.cons fName true cap (.struct nfs) .nil) = leavesOf nfs := by
      simp [leavesOf]
    rw [hleaves] at htok ⊢
    have hsub : sliceFrom record (j : Int) = some (record.drop j) := by
      simp [sliceFrom, hj]
    obtain ⟨nvals, hnv, hlen, hpt⟩ :=
      walk_of_ExampleShaped pf nfs (zeroFields nfs) (record.drop j) 0 hn
        (by simp only [List.length_drop]; omega) (Nat.zero_le _)
        (fun p l hl => by
          have := htok p l hl
          rwa [Nat.zero_add, List.getElem?_drop])
    have hcnt : DeepCount (.struct nfs) = .ok (wrapInt (0 + spanSum nfs)) := by
      simpa [DeepCount] using
        countFields_eq_wrap nfs 0 (CapsNumeric_of_ExampleShaped nfs hn) (by decide)
    have hll : leavesList [.struct nvals] = leavesList nvals := by
      simp [leavesList, leaves]
    refine ⟨[.struct nvals], ?_, ?_, ?_⟩
    · rw [walk]
      have h0 : ((0 : Nat) : Int) = 0 := rfl
      rw [h0] at hnv
      simp [hsub, hnv, hcnt, walk, Walk.cons]
    · rw [hll, hlen]
    · intro p l hl
      obtain ⟨tok, htk, hc⟩ := hpt p l hl
      rw [Nat.zero_add, List.getElem?_drop] at htk
      exact ⟨tok, htk, by rw [hll]; exact hc⟩
  | .cons _ _ _ (.slice (.struct _)) _, _, _, _, hs, _, _, _ => by simp [ExampleShaped] at hs
  | .cons _ _ _ (.slice (.slice _)) _, _, _, _, hs, _, _, _ => by simp [ExampleShaped] at hs
  | .cons _ _ _ (.slice (.ptr _ _ _)) _, _, _, _, hs, _, _, _ => by
    simp [ExampleShaped] at hs
  | .cons _ _ _ (.ptr _ _ _) _, _, _, _, hs, _, _, _ => by simp [ExampleShaped] at hs

theorem forall₂_getElem_some {α β : Type} {R : α → β → Prop} {l₁ : List α} {l₂ : List β}
    (h : List.Forall₂ R l₁ l₂) :
    ∀ (p : Nat) (a : α), l₁[p]? = some a → ∃ b, l₂[p]? = some b ∧ R a b := by
  induction h with
  | nil => intro p a ha; simp at ha
  | cons hab _ ih =>
    intro p a ha
    cases p with
    | zero =>
      simp only [List.getElem?_cons_zero, Option.some.injEq] at ha
      subst ha
      exact ⟨_, by simp, hab⟩
    | succ p =>
      simp only [List.getElem?_cons_succ] at ha ⊢
      exact ih p a ha

/-- C6, evaluated at a failing input.  The two rows of the example of
example_test.go, decoded one after the other into the same destination of type
`Good`, give `{0 0 [10 1] {false [1002 1003] [Boo Yeah Banjo]}}` and
`{1 2.1 [11 12] {true [1002 1005] [Boo Nay Banjo]}}`.  The row
`1, 2.1, "", 12, true, 1002, 1005, Boo, Nay, Banjo` has `DeepCount(Good) = 10`
tokens too, each valid for its leaf: the scalar coercer turns them into
1, 2.1, 0, 12, `true`, 1002, 1005, `Boo`, `Nay`, `Banjo`.  On that row
`DeepUnmarshalCSV` does not succeed: it returns "Error setting slice" at
element 0 of the first repeated field and leaves the fields after it
undecoded, because the slice branch of `SetFieldWithValue` parses an `int`
element without the guard for the empty token that the scalar branches have
(decode.go:302 against decode.go:271).  The empty token of an `int` element is
the only case in which the claim fails: for every destination type shaped like
the example's and every row that has `DeepCount` tokens, one valid token for
each leaf of the type, those of the `int` elements not empty,
`DeepUnmarshalCSV` returns `nil` and the leaves of the populated record, read
in declaration order through nested records and repeated fields, are exactly
the coerced tokens in row order, whatever the destination held before. -/
theorem C6_valid_empty_token_fails_an_example_shaped_row :
    (DeepUnmarshalCSV exampleParseFloat
        (.ok ["0", "0.0", "10", "1", "false", "1002", "1003", "Boo", "Yeah", "Banjo"])
        (.pointer (.struct exampleGood) (some (zero (.struct exampleGood))))
      = .ret (.pointer (.struct exampleGood) (some (.struct
          [.int 0, .float 0, .slice [.int 10, .int 1],
            .struct [.str "false", .slice [.int 1002, .int 1003],
              .slice [.str "Boo", .str "Yeah", .str "Banjo"]]]))) none ∧
      DeepUnmarshalCSV exampleParseFloat
        (.ok ["1", "2.1", "11", "12", "true", "1002", "1005", "Boo", "Nay", "Banjo"])
        (.pointer (.struct exampleGood) (some (.struct
          [.int 0, .float 0, .slice [.int 10, .int 1],
            .struct [.str "false", .slice [.int 1002, .int 1003],
              .slice [.str "Boo", .str "Yeah", .str "Banjo"]]])))
      = .ret (.pointer (.struct exampleGood) (some (.struct
          [.int 1, .float 0x4000CCCCCCCCCCCD, .slice [.int 11, .int 12],
            .struct [.str "true", .slice [.int 1002, .int 1005],
              .slice [.str "Boo", .str "Nay", .str "Banjo"]]]))) none) ∧
    (ExampleShaped exampleGood ∧
      DeepCount (.struct exampleGood) = .ok 10 ∧
      List.zipWith (Leaf.coerce exampleParseFloat) (leavesOf exampleGood)
          ["1", "2.1", "", "12", "true", "1002", "1005", "Boo", "Nay", "Banjo"]
        = [some (.int 1), some (.float 0x4000CCCCCCCCCCCD), some (.int 0), some (.int 12),
            some (.str "true"), some (.int 1002), some (.int 1005), some (.str "Boo"),
            some (.str "Nay"), some (.str "Banjo")] ∧
      DeepUnmarshalCSV exampleParseFloat
          (.ok ["1", "2.1", "", "12", "true", "1002", "1005", "Boo", "Nay", "Banjo"])
          (.pointer (.struct exampleGood) (some (zero (.struct exampleGood))))
        = .ret (.pointer (.struct exampleGood) (some (.struct
            [.int 1, .float 0x4000CCCCCCCCCCCD, .slice [.int 0, .int 0],
              .struct [.str "", .slice [], .slice []]])))
          (some (.settingSlice (.failedParsing "" .ErrSyntax) "Related" 2 0))) ∧
    (∀ (pf : ParseFloatFn) (fs : Fields) (s : Value) (record : List String),
      ExampleShaped fs →
      DeepCount (.struct fs) = .ok (record.length : Int) →
      List.Forall₂ (fun l tok => (Leaf.coerce pf l tok).isSome = true ∧
        (l = .elem .Int → tok ≠ "")) (leavesOf fs) record →
      ∃ vals, DeepUnmarshalCSV pf (.ok record) (.pointer (.struct fs) (some s))
          = .ret (.pointer (.struct fs) (some (.struct vals))) none ∧
        (leaves (.struct vals)).map some
          = List.zipWith (Leaf.coerce pf) (leavesOf fs) record) := by
  refine ⟨⟨rfl, rfl⟩,
    ⟨⟨rfl, by decide, rfl, by decide, rfl, Or.inl rfl, ⟨2, rfl⟩, rfl, rfl,
        rfl, by decide, rfl, Or.inl rfl, ⟨2, rfl⟩, rfl, Or.inr rfl, ⟨3, rfl⟩, trivial⟩,
      rfl, rfl, rfl⟩, ?_⟩
  intro pf fs s record hs hD hv
  have hrow : record.length < 2 ^ 63 := by
    have h1 := countFields_eq_wrap fs 0 (CapsNumeric_of_ExampleShaped fs hs) (by decide)
    simp only [DeepCount] at hD
    rw [h1] at hD
    have h2 := wrapInt_upper (0 + spanSum fs)
    simp only [Except.ok.injEq] at hD
    rw [hD] at h2
    exact_mod_cast h2
  have hlenLR := hv.length_eq
  obtain ⟨vals, hw, hlen, hpt⟩ :=
    walk_of_ExampleShaped pf fs (fieldsOf s) record 0 hs hrow (Nat.zero_le _)
      (fun p l hl => by
        obtain ⟨tok, htk, hr, hne⟩ := forall₂_getElem_some hv p l hl
        obtain ⟨v, hv1⟩ := Option.isSome_iff_exists.mp hr
        exact ⟨tok, v, by rwa [Nat.zero_add], hv1, hne⟩)
  refine ⟨vals, ?_, ?_⟩
  · have h0 : ((0 : Nat) : Int) = 0 := rfl
    rw [h0] at hw
    simp [DeepUnmarshalCSV, hD, DeepUnmarshal, hw, Walk.toOutcome]
  · simp only [leaves]
    apply List.ext_getElem?
    intro n
    rw [List.getElem?_map, List.getElem?_zipWith']
    cases hl : (leavesOf fs)[n]? with
    | none =>
      have h1 : (leavesList vals)[n]? = none := by
        rw [List.getElem?_eq_none_iff] at hl ⊢
        omega
      simp [h1]
    | some l =>
      obtain ⟨tok, htk, hc⟩ := hpt n l hl
      rw [Nat.zero_add] at htk
      have hlt : n < (leavesList vals).length := by
        rcases List.getElem?_eq_some.mp hl with ⟨h, -⟩
        omega
      obtain ⟨v, hv1⟩ : ∃ v, (leavesList vals)[n]? = some v :=
        ⟨_, List.getElem?_eq_getElem hlt⟩
      rw [hv1] at hc ⊢
      simp [htk, hc]

/-! ## C11 : `DeepCount` and fields of unrecognized kind -/

/-- Every error of the loop of `DeepCount` is the count-tag error, so none is
the unsupported-field-kind error. -/
theorem countFields_err_not_unsupported :
    ∀ (fs : Fields) (count : Int) (e : Error), countFields fs count = .error e →
      e.isUnsupportedKind = false
  | .nil, count, e, h => by simp [countFields] at h
  | .cons _ _ _ (.struct nfs) rest, count, e, h => by
    rw [countFields] at h
    split at h
    · rename_i e1 h1
      cases h
      exact countFields_err_not_unsupported nfs 0 e1 h1
    · exact countFields_err_not_unsupported rest _ e h
  | .cons _ _ cap (.slice _) rest, count, e, h => by
    rw [countFields] at h
    split at h
    · cases h; rfl
    · exact countFields_err_not_unsupported rest _ e h
  | .cons _ _ _ (.basic _) rest, count, e, h => by
    rw [countFields] at h
    exact countFields_err_not_unsupported rest _ e h
  | .cons _ _ _ (.ptr _ _ _) rest, count, e, h => by
    rw [countFields] at h
    exact countFields_err_not_unsupported rest _ e h

/-- C11 as stated fails: `struct { B bool }` has a field of unrecognized kind
and `DeepCount` returns the count 1 for it; for
`struct { N struct { X int }; B bool }`, 2. -/
theorem C11_DeepCount_counts_a_bool_field :
    HasUnrecognized oneBool ∧ DeepCount (.struct oneBool) = .ok 1 ∧
    HasUnrecognized nestedThenBool ∧ DeepCount (.struct nestedThenBool) = .ok 2 :=
  ⟨Or.inl ⟨rfl, by decide, by decide, by decide⟩, rfl,
    Or.inr (Or.inl ⟨rfl, by decide, by decide, by decide⟩), rfl⟩

/-- C11, amended.  `DeepCount` does not look at the kind of a field that is
neither a nested record nor a repeated field: a field of unrecognized kind
(for example a boolean) adds 1 to the count like a scalar field.  `DeepCount`
never fails with the unsupported-field-kind error: its only error is the
count-tag error of a repeated field, and on a type whose repeated fields all
carry a count tag that parses it returns a count, whatever the kinds of the
other fields. -/
theorem C11_DeepCount_counts_one_for_an_unrecognized_kind (fName cap : String)
    (exported : Bool) (ft : Ty) (rest : Fields) (count : Int) (hU : Unrecognized ft) :
    countFields (.cons fName exported cap ft rest) count
      = countFields rest (wrapInt (count + 1)) ∧
    (∀ (fs : Fields) (e : Error), DeepCount (.struct fs) = .error e →
      e.isUnsupportedKind = false ∧ e.isCapTagError = true) ∧
    (∀ fs : Fields, CapsNumeric fs → ∃ n, DeepCount (.struct fs) = .ok n) := by
  refine ⟨?_, ?_, ?_⟩
  · cases ft with
    | basic k => rw [countFields]
    | struct fs => exact absurd hU (by simp [Unrecognized])
    | slice e => exact absurd hU (by simp [Unrecognized])
    | ptr e n u => rw [countFields]
  · intro fs e h
    simp only [DeepCount] at h
    exact ⟨countFields_err_not_unsupported fs 0 e h, countFields_err_isCapTagError fs 0 e h⟩
  · intro fs h
    exact ⟨_, by simpa [DeepCount] using countFields_eq_wrap fs 0 h (by decide)⟩

/-- C11 at the `bool` field of `struct { A int; B bool; C int }`: the loop
goes past it with the count raised by 1, and the type counts 3. -/
theorem C11_DeepCount_witness :
    Unrecognized (.basic .Bool) ∧
    countFields (scalarField "B" .Bool (scalarField "C" .Int .nil)) 1
      = countFields (scalarField "C" .Int .nil) (wrapInt (1 + 1)) ∧
    DeepCount (.struct scalarBoolScalar) = .ok 3 :=
  ⟨⟨rfl, by decide, by decide, by decide⟩,
    (C11_DeepCount_counts_one_for_an_unrecognized_kind "B" "" true (.basic .Bool)
      (scalarField "C" .Int .nil) 1 ⟨rfl, by decide, by decide, by decide⟩).1,
    rfl⟩

/-! ## C16 : the sign of the count -/

theorem wrapInt_add_wrapInt (a b : Int) : wrapInt (a + wrapInt b) = wrapInt (a + b) := by
  simp only [wrapInt_eq]
  omega

theorem wrapInt_nested_add (a b c : Int) :
    wrapInt (wrapInt (a + wrapInt b) + c) = wrapInt (a + (b + c)) := by
  simp only [wrapInt_eq]
  omega

/-- On a type whose count tags denote natural numbers the loop of `DeepCount`
ends with the running total plus the token demand of the type, reduced to an
`int`. -/
theorem countFields_eq_demand :
    ∀ (fs : Fields) (count : Int), CapsNatural fs → wrapInt count = count →
      countFields fs count = .ok (wrapInt (count + (demand fs : Int)))
  | .nil, count, _, hc => by simp [countFields, demand, hc]
  | .cons name exported cap (.struct nfs) rest, count, h, _ => by
    have ih1 := countFields_eq_demand nfs 0 h.1 (by decide)
    rw [countFields, ih1]
    simp only []
    rw [countFields_eq_demand rest _ h.2 (wrapInt_idem _), wrapInt_nested_add, demand]
    push_cast
    rw [zero_add]
  | .cons name exported cap (.slice elem) rest, count, h, _ => by
    obtain ⟨k, hk⟩ := h.1
    rw [countFields, hk]
    simp only []
    rw [countFields_eq_demand rest _ h.2 (wrapInt_idem _), wrapInt_wrapInt_add, demand,
      declaredCount_of_ParseInt hk]
    push_cast
    rw [add_assoc]
  | .cons _ _ _ (.basic _) rest, count, h, _ => by
    rw [countFields, countFields_eq_demand rest _ h (wrapInt_idem _), wrapInt_wrapInt_add,
      demand]
    push_cast
    rw [add_assoc]
  | .cons _ _ _ (.ptr _ _ _) rest, count, h, _ => by
    rw [countFields, countFields_eq_demand rest _ h (wrapInt_idem _), wrapInt_wrapInt_add,
      demand]
    push_cast
    rw [add_assoc]

/-- A count that the loop of `DeepCount` returns is an `int`. -/
theorem countFields_ok_wrapInt :
    ∀ (fs : Fields) (count n : Int), countFields fs count = .ok n → wrapInt count = count →
      wrapInt n = n
  | .nil, count, n, h, hc => by
    simp only [countFields, Except.ok.injEq] at h
    rw [← h, hc]
  | .cons _ _ _ (.struct nfs) rest, count, n, h, _ => by
    rw [countFields] at h
    split at h
    · cases h
    · exact countFields_ok_wrapInt rest _ n h (wrapInt_idem _)
  | .cons _ _ cap (.slice _) rest, count, n, h, _ => by
    rw [countFields] at h
    split at h
    · cases h
    · exact countFields_ok_wrapInt rest _ n h (wrapInt_idem _)
  | .cons _ _ _ (.basic _) rest, count, n, h, _ => by
    rw [countFields] at h
    exact countFields_ok_wrapInt rest _ n h (wrapInt_idem _)
  | .cons _ _ _ (.ptr _ _ _) rest, count, n, h, _ => by
    rw [countFields] at h
    exact countFields_ok_wrapInt rest _ n h (wrapInt_idem _)

/-- C16 as stated fails: on `struct { A int; R []int "cap:-3" }` the count
tag parses (`ParseInt` accepts a sign), `DeepCount` succeeds, and the count it
returns is `1 + (-3) = -2`. -/
theorem C16_negative_count_tag_gives_negative_count :
    ParseInt "-3" 0 = .ok (-3) ∧
    DeepCount (.struct negativeRepeated) = .ok (-2) ∧
    ¬ (∀ (fs : Fields) (n : Int), DeepCount (.struct fs) = .ok n → 0 ≤ n) :=
  ⟨rfl, rfl, fun h => absurd (h negativeRepeated (-2) (by rfl)) (by decide)⟩

/-- C16, amended.  A count that `DeepCount` returns is an `int`, between
`-2^63` and `2^63 - 1`; it is non-negative, and is exactly the token demand of
the type, when every count tag of the type's repeated fields denotes a natural
number and that demand is below `2^63`. -/
theorem C16_DeepCount_is_an_int_nonnegative_for_natural_tags (fs : Fields) (n : Int)
    (h : DeepCount (.struct fs) = .ok n) :
    (-(2 ^ 63) ≤ n ∧ n < 2 ^ 63) ∧
    (CapsNatural fs → demand fs < 2 ^ 63 → n = (demand fs : Int) ∧ 0 ≤ n) := by
  simp only [DeepCount] at h
  have hw := countFields_ok_wrapInt fs 0 n h (by decide)
  refine ⟨⟨?_, ?_⟩, ?_⟩
  · rw [← hw]; exact wrapInt_lower n
  · rw [← hw]; exact wrapInt_upper n
  · intro hc hd
    have h1 := countFields_eq_demand fs 0 hc (by decide)
    rw [h1] at h
    simp only [Except.ok.injEq, zero_add] at h
    rw [wrapInt_of_range (by omega) (by exact_mod_cast hd)] at h
    exact ⟨h.symm, by omega⟩

/-- C16 at `scalarNestedRepeated` (count 5, all tags natural) and at
`negativeRepeated` (count -2, within the range of `int`). -/
theorem C16_DeepCount_sign_witness :
    ((-(2 ^ 63) ≤ (5 : Int) ∧ (5 : Int) < 2 ^ 63) ∧
      (CapsNatural scalarNestedRepeated → demand scalarNestedRepeated < 2 ^ 63 →
        (5 : Int) = (demand scalarNestedRepeated : Int) ∧ 0 ≤ (5 : Int))) ∧
    CapsNatural scalarNestedRepeated ∧ demand scalarNestedRepeated = 5 ∧
    (-(2 ^ 63) ≤ (-2 : Int) ∧ (-2 : Int) < 2 ^ 63) :=
  ⟨C16_DeepCount_is_an_int_nonnegative_for_natural_tags scalarNestedRepeated 5 rfl,
    ⟨trivial, ⟨3, rfl⟩, trivial⟩, rfl,
    (C16_DeepCount_is_an_int_nonnegative_for_natural_tags negativeRepeated (-2) (by rfl)).1⟩

/-! ## C17, C18, C19 : the elements of a repeated field -/

/-- C17, evaluated at a failing input.  For an element of a `[]int` field the
empty token is not zero: the slice branch of `SetFieldWithValue` calls
`ParseInt` without the `fValue != ""` guard of the scalar branches
(decode.go:302 against decode.go:271), so the empty token is a syntax error.
On `struct { R []int "cap:3" }` and the row `7, "", 9` `DeepUnmarshal` returns
"Error setting slice" at element 1, and element 2 is never decoded; the same
token in a scalar `int` field is decoded as 0. -/
theorem C17_empty_token_in_int_element_is_an_error (pf : ParseFloatFn) :
    (∀ (backing : List Value) (n : Nat),
      SetFieldWithValue pf (.slice (.basic .Int)) (.window backing n) ""
        = .err (.failedParsing "" .ErrSyntax)) ∧
    DeepUnmarshal pf (.pointer (.struct oneRepeated) (some (.struct [.slice []])))
        ["7", "", "9"]
      = .ret (.pointer (.struct oneRepeated)
            (some (.struct [.slice [.int 7, .int 0, .int 0]])))
          (some (.settingSlice (.failedParsing "" .ErrSyntax) "R" 0 1)) ∧
    DeepUnmarshal pf (.pointer (.struct (scalarField "A" .Int .nil)) (some (.struct [.int 7])))
        [""]
      = .ret (.pointer (.struct (scalarField "A" .Int .nil)) (some (.struct [.int 0]))) none :=
  ⟨fun _ _ => rfl, rfl, rfl⟩

/-- C18, evaluated at a failing input.  For a repeated field whose elements
are of a sized or unsigned integer type the slice branch of
`SetFieldWithValue` falls to its `default` case (decode.go:308-309), which
hands the token, a string, to `reflect.Append`: the call panics, whatever the
token.  On `struct { R []int64 "cap:2" }` and the row `5, 6` `DeepUnmarshal`
panics at the first element. -/
theorem C18_sized_int_elements_panic (pf : ParseFloatFn) :
    (∀ (k : Kind) (f : Target) (tok : String), k ≠ .Int →
      ((intKindToSize k).isSome = true ∨ (uintKindToSize k).isSome = true) →
      SetFieldWithValue pf (.slice (.basic k)) f tok = .panic .notAssignable) ∧
    DeepCount (.struct repeatedInt64) = .ok 2 ∧
    DeepUnmarshal pf (.pointer (.struct repeatedInt64) (some (.struct [.slice []])))
        ["5", "6"]
      = .panic .notAssignable ∧
    DeepUnmarshalCSV pf (.ok ["5", "6"])
        (.pointer (.struct repeatedInt64) (some (.struct [.slice []])))
      = .panic .notAssignable := by
  refine ⟨?_, rfl, rfl, rfl⟩
  intro k f tok hk hs
  cases k <;> first
    | exact absurd rfl hk
    | rfl
    | (simp [intKindToSize, uintKindToSize] at hs)

/-- In the slice branch of `SetFieldWithValue` only an `int` element has an
error path. -/
theorem SetFieldWithValue_slice_no_err (pf : ParseFloatFn) (elem : Ty) (f : Target)
    (tok : String) (e : Error) (h : elem ≠ .basic .Int) :
    SetFieldWithValue pf (.slice elem) f tok ≠ .err e := by
  have hc : coerce pf .Slice tok = none := rfl
  intro he
  cases elem with
  | basic k =>
    cases k <;> first
      | exact h rfl
      | (simp [SetFieldWithValue, Ty.kind, hc] at he)
  | struct fs => simp [SetFieldWithValue, Ty.kind, hc] at he
  | slice el => simp [SetFieldWithValue, Ty.kind, hc] at he
  | ptr el nm um => simp [SetFieldWithValue, Ty.kind, hc] at he

theorem fillSlice_no_err (pf : ParseFloatFn) (elem : Ty) (fName : String)
    (record : List String) (j : Int) (h : elem ≠ .basic .Int) :
    ∀ (rem n : Nat) (backing b : List Value) (e : Error),
      fillSlice pf (.slice elem) fName record j rem n backing ≠ .err b e
  | 0, _, _, _, _ => by simp [fillSlice]
  | rem + 1, n, backing, b, e => by
    intro hf
    rw [fillSlice] at hf
    split at hf
    · cases hf
    · split at hf
      · cases hf
      · rename_i e1 h1
        exact SetFieldWithValue_slice_no_err pf elem _ _ e1 h h1
      · exact fillSlice_no_err pf elem fName record j h rem (n + 1) _ b e hf

/-- C19 as stated fails.  On `struct { R []float64 "cap:1" }` and the row
`1.5` `DeepUnmarshal` returns no error: it panics in `reflect.Append`.  On
`struct { R []struct { X int } "cap:1" }` likewise.  On
`struct { R []float64 "cap:0"; A int }` and the row `4` it returns `nil`.  On
`struct { R []interface{} "cap:2" }` and the row `a, b` it returns `nil` and
has stored both tokens. -/
theorem C19_other_element_types_give_no_error :
    DeepUnmarshal exampleParseFloat
        (.pointer (.struct repeatedFloat64) (some (.struct [.slice []]))) ["1.5"]
      = .panic .notAssignable ∧
    DeepUnmarshal exampleParseFloat
        (.pointer (.struct repeatedRecord) (some (.struct [.slice []]))) ["1"]
      = .panic .notAssignable ∧
    DeepUnmarshal exampleParseFloat
        (.pointer (.struct emptyRepeatedFloat64) (some (.struct [.slice [], .int 0]))) ["4"]
      = .ret (.pointer (.struct emptyRepeatedFloat64)
          (some (.struct [.slice [], .int 4]))) none ∧
    DeepUnmarshal exampleParseFloat
        (.pointer (.struct repeatedInterface) (some (.struct [.slice []]))) ["a", "b"]
      = .ret (.pointer (.struct repeatedInterface)
          (some (.struct [.slice [.iface (some (.str "a")), .iface (some (.str "b"))]])))
          none :=
  ⟨rfl, rfl, rfl, rfl⟩

/-- C19, amended.  For a (settable) repeated field whose element type is
neither `int` nor `string` `DeepUnmarshal` has no error for the element type:
`SetFieldWithValue` returns no error on the field, and an error the walk
returns at the field is the count-tag error or the error of a later field.
With the declared count 0 the field is set to the empty sequence, whatever the
element type, and the walk goes on with the next field at the same cursor.
With the element type `interface{}` and `k` tokens at the positions
`j .. j+k-1` of the row the field is set to a sequence of length `k` whose
element `n` holds the raw token `record[j+n]`, and the walk goes on with the
next field with the cursor at `j + k`.  (The cursor is an `int` and the row a
Go slice: both are below `2^63`.) -/
theorem C19_elements_of_other_types_are_never_rejected (pf : ParseFloatFn)
    (fName cap : String) (elem : Ty) (rest : Fields) (olds : List Value)
    (record : List String) (j : Nat)
    (h : elem ≠ .basic .Int ∧ elem ≠ .basic .String)
    (hrow : record.length < 2 ^ 63) (hj : j < 2 ^ 63) :
    (∀ (f : Target) (tok : String) (e : Error),
      SetFieldWithValue pf (.slice elem) f tok ≠ .err e) ∧
    (∀ (vals : List Value) (e : Error),
      walk pf (.cons fName true cap (.slice elem) rest) olds record j = .fail vals e →
      (∃ c, ParseInt cap 0 = .error c ∧ e = .capTagError c j cap ∧ vals = olds) ∨
      (∃ (add : Int) (b rvals : List Value), ParseInt cap 0 = .ok add ∧
        walk pf rest olds.tail record (wrapInt (wrapInt (j + wrapInt (add - 1)) + 1))
          = .fail rvals e ∧
        vals = .slice b :: rvals)) ∧
    (ParseInt cap 0 = .ok 0 →
      walk pf (.cons fName true cap (.slice elem) rest) olds record j
        = (walk pf rest olds.tail record j).cons (.slice [])) ∧
    (elem = .basic .Interface → ∀ k : Nat, ParseInt cap 0 = .ok (k : Int) →
      (∀ n, n < k → ∃ tok, record[j + n]? = some tok) →
      ∃ vals, walk pf (.cons fName true cap (.slice elem) rest) olds record j
          = (walk pf rest olds.tail record ((j + k : Nat) : Int)).cons (.slice vals) ∧
        vals.length = k ∧
        ∀ n, n < k → ∃ tok, record[j + n]? = some tok ∧
          vals[n]? = some (.iface (some (.str tok)))) := by
  refine ⟨fun f tok e => SetFieldWithValue_slice_no_err pf elem f tok e h.1, ?_, ?_, ?_⟩
  · intro vals e hw
    rw [walk] at hw
    simp only [not_true_eq_false, if_false] at hw
    split at hw
    · rename_i c hc
      cases hw
      exact Or.inl ⟨c, hc, rfl, rfl⟩
    · rename_i add hadd
      split at hw
      · cases hw
      · split at hw
        · cases hw
        · rename_i b e1 h1
          exact absurd h1 (fillSlice_no_err pf elem fName record j h.1 _ _ _ b e1)
        · rename_i b hb
          obtain ⟨rvals, hr, hv⟩ := Walk.cons_eq_fail hw
          exact Or.inr ⟨add, b, rvals, hadd, hr, hv⟩
  · intro hcap
    have hcur : wrapInt (wrapInt ((j : Int) + wrapInt ((0 : Int) - 1)) + 1) = (j : Int) := by
      simp only [wrapInt_eq]
      omega
    rw [walk]
    simp only [not_true_eq_false, if_false, hcap, lt_self_iff_false, Int.toNat_zero,
      List.replicate_zero, fillSlice, hcur]
  · intro he k hcap htok
    subst he
    obtain ⟨vals, hw, hlen, hpt⟩ :=
      walk_at_repeated pf fName cap .Interface rest olds record j k hcap hrow hj
        (fun n hn => by
          obtain ⟨tok, htk⟩ := htok n hn
          exact ⟨tok, .iface (some (.str tok)), htk, rfl⟩)
    refine ⟨vals, hw, hlen, fun n hn => ?_⟩
    obtain ⟨tok, htk, hc⟩ := hpt n hn
    exact ⟨tok, htk, hc.symm⟩

/-- C19 at `struct { R []interface{} "cap:2" }` and the row `a, b`: the
element type is neither `int` nor `string`, both tokens are in the row, and
the field becomes the sequence of the two raw tokens. -/
theorem C19_interface_elements_witness :
    (Ty.basic .Interface ≠ Ty.basic .Int ∧ Ty.basic .Interface ≠ Ty.basic .String) ∧
    (∃ vals, walk exampleParseFloat repeatedInterface [.slice []] ["a", "b"] ((0 : Nat) : Int)
        = (walk exampleParseFloat .nil [] ["a", "b"] ((0 + 2 : Nat) : Int)).cons
            (.slice vals) ∧
      vals.length = 2 ∧
      ∀ n, n < 2 → ∃ tok, (["a", "b"] : List String)[0 + n]? = some tok ∧
        vals[n]? = some (.iface (some (.str tok)))) ∧
    walk exampleParseFloat repeatedInterface [.slice []] ["a", "b"] 0
      = .done [.slice [.iface (some (.str "a")), .iface (some (.str "b"))]] :=
  ⟨⟨by simp, by simp⟩,
    (C19_elements_of_other_types_are_never_rejected exampleParseFloat "R" "2"
      (.basic .Interface) .nil [.slice []] ["a", "b"] 0 ⟨by simp, by simp⟩ (by decide)
      (by decide)).2.2.2 rfl 2 rfl
      (fun n hn => by
        match n, hn with
        | 0, _ => exact ⟨"a", rfl⟩
        | 1, _ => exact ⟨"b", rfl⟩),
    rfl⟩

/-! ## C12, C13 : the custom-decode capability -/

/-- The step of `Decode` at an exported pointer field whose type implements
`Unmarshaller`: `UnmarshalCSV` is called with the token, a returned error ends
the loop, otherwise the loop goes on with the next field and the next token. -/
theorem decodeFields_at_unmarshaller (pf : ParseFloatFn) (fName cap : String) (elem : Ty)
    (nm : Nat) (u : UnmarshalCSV) (rest : Fields) (olds : List Value) (tok : String)
    (record : List String) (hnm : nm ≠ 0) :
    decodeFields pf (.cons fName true cap (.ptr elem nm (some u)) rest) olds (tok :: record)
      = (match u tok (pointeeOf elem (olds.headD (.ptr none))) with
        | (p, some e) => .fail (.ptr (some p) :: olds.tail) e
        | (p, none) => (decodeFields pf rest olds.tail record).cons (.ptr (some p))) := by
  rw [decodeFields]
  simp only [not_true_eq_false, if_false, ne_eq, hnm, if_true, pointeeOf]
  rfl

/-- The step of `Decode` at an exported field that is not of a pointer type,
nor a struct or slice: the scalar coercer decides, by the kind alone. -/
theorem decodeFields_at_basic (pf : ParseFloatFn) (fName cap : String) (k : Kind)
    (rest : Fields) (olds : List Value) (tok : String) (record : List String) :
    decodeFields pf (.cons fName true cap (.basic k) rest) olds (tok :: record)
      = (match coerce pf k tok with
        | some (.error e) => .fail olds (.failedParsing fName e)
        | some (.ok v) => (decodeFields pf rest olds.tail record).cons v
        | none => .fail olds (.dontKnow fName k)) := by
  rw [decodeFields]
  · simp only [not_true_eq_false, if_false, Ty.kind]
  · intro _ _ _ h
    cases h

/-- C12.  In `Decode`, at a (settable) pointer field whose type implements
`Unmarshaller`, `UnmarshalCSV` is called on the field with the token paired
with the field, as read; the scalar coercer is not consulted; when
`UnmarshalCSV` returns `nil` the loop goes on with the next field and the next
token, and when it returns an error the loop ends and `Decode` returns that
very error, the later fields unwritten. -/
theorem C12_Decode_calls_UnmarshalCSV_on_pointer_fields (pf : ParseFloatFn)
    (fName cap : String) (elem : Ty) (nm : Nat) (u : UnmarshalCSV) (rest : Fields)
    (olds : List Value) (tok : String) (record : List String) (hnm : nm ≠ 0) :
    decodeFields pf (.cons fName true cap (.ptr elem nm (some u)) rest) olds (tok :: record)
      = (match u tok (pointeeOf elem (olds.headD (.ptr none))) with
        | (p, some e) => .fail (.ptr (some p) :: olds.tail) e
        | (p, none) => (decodeFields pf rest olds.tail record).cons (.ptr (some p))) ∧
    (∀ (p : Value) (e : Error), u tok (pointeeOf elem (olds.headD (.ptr none))) = (p, some e) →
      rest.length = record.length →
      Decode pf (.ok (tok :: record))
          (.pointer (.struct (.cons fName true cap (.ptr elem nm (some u)) rest))
            (some (.struct olds)))
        = .ret (.pointer (.struct (.cons fName true cap (.ptr elem nm (some u)) rest))
              (some (.struct (.ptr (some p) :: olds.tail)))) (some e)) := by
  have h1 := decodeFields_at_unmarshaller pf fName cap elem nm u rest olds tok record hnm
  refine ⟨h1, ?_⟩
  intro p e hu hlen
  simp only [Decode, Fields.length, List.length_cons, hlen, ne_eq, not_true_eq_false,
    if_false, fieldsOf, h1, hu, Walk.toOutcome]

/-- C12 at `struct { A int; P *Name; C int }`: the row `1, Ada, 3` is decoded
with `UnmarshalCSV("Ada")` called on a freshly allocated `Name`, and on the
row `1, "", 3` the error of `UnmarshalCSV` comes back unchanged, `C` being
left as it was. -/
theorem C12_Decode_UnmarshalCSV_witness :
    decodeFields exampleParseFloat (.cons "P" true "" namePtr (scalarField "C" .Int .nil))
        [.ptr none, .int 0] ["Ada", "3"]
      = (match nameUnmarshalCSV "Ada" (pointeeOf (.basic .String) (.ptr none)) with
        | (p, some e) => .fail [.ptr (some p), .int 0] e
        | (p, none) =>
          (decodeFields exampleParseFloat (scalarField "C" .Int .nil) [.int 0] ["3"]).cons
            (.ptr (some p))) ∧
    Decode exampleParseFloat (.ok ["1", "Ada", "3"])
        (.pointer (.struct scalarNameScalar) (some (.struct [.int 0, .ptr none, .int 0])))
      = .ret (.pointer (.struct scalarNameScalar)
          (some (.struct [.int 1, .ptr (some (.str "Ada")), .int 3]))) none ∧
    Decode exampleParseFloat (.ok ["1", "", "3"])
        (.pointer (.struct scalarNameScalar) (some (.struct [.int 0, .ptr none, .int 7])))
      = .ret (.pointer (.struct scalarNameScalar)
          (some (.struct [.int 1, .ptr (some (.str "")), .int 7])))
          (some (.external "empty name")) :=
  ⟨(C12_Decode_calls_UnmarshalCSV_on_pointer_fields exampleParseFloat "P" ""
      (.basic .String) 1 nameUnmarshalCSV (scalarField "C" .Int .nil) [.ptr none, .int 0]
      "Ada" ["3"] (by decide)).1,
    rfl, rfl⟩

/-- C13 as stated fails for `DeepUnmarshal`.  On `struct { P *Name }`, whose
field type implements `Unmarshaller`, and the row `Ada`, `DeepUnmarshal` does
not call `UnmarshalCSV`: it returns "Field set error" around "don't know how
to decode field" and leaves the pointer nil, where `Decode` on the same input
calls `UnmarshalCSV("Ada")`. -/
theorem C13_DeepUnmarshal_ignores_UnmarshalCSV :
    DeepUnmarshal exampleParseFloat
        (.pointer (.struct (.cons "P" true "" namePtr .nil)) (some (.struct [.ptr none])))
        ["Ada"]
      = .ret (.pointer (.struct (.cons "P" true "" namePtr .nil)) (some (.struct [.ptr none])))
          (some (.fieldSetError (.dontKnow "" .Pointer))) ∧
    Decode exampleParseFloat (.ok ["Ada"])
        (.pointer (.struct (.cons "P" true "" namePtr .nil)) (some (.struct [.ptr none])))
      = .ret (.pointer (.struct (.cons "P" true "" namePtr .nil))
          (some (.struct [.ptr (some (.str "Ada"))]))) none :=
  ⟨rfl, rfl⟩

/-- C13, amended.  Only `Decode` consults the custom-decode capability, and
only for a field of pointer type: there `UnmarshalCSV` receives the raw token
and the field takes exactly one token.  `DeepUnmarshal` never calls
`UnmarshalCSV`: at a field of pointer type, implementing `Unmarshaller` or
not, it returns the unsupported-kind error and writes nothing.  A field that
is not of pointer type is decoded by its kind alone in both decoders: the
scalar coercer is applied to it whatever methods its type has. -/
theorem C13_only_Decode_consults_Unmarshaller_for_pointers (pf : ParseFloatFn)
    (fName cap : String) (elem : Ty) (nm : Nat) (u : UnmarshalCSV) (rest : Fields)
    (olds : List Value) (tok : String) (record row : List String) (j : Int)
    (hnm : nm ≠ 0) (hj : index row j = some tok) :
    decodeFields pf (.cons fName true cap (.ptr elem nm (some u)) rest) olds (tok :: record)
      = (match u tok (pointeeOf elem (olds.headD (.ptr none))) with
        | (p, some e) => .fail (.ptr (some p) :: olds.tail) e
        | (p, none) => (decodeFields pf rest olds.tail record).cons (.ptr (some p))) ∧
    walk pf (.cons fName true cap (.ptr elem nm (some u)) rest) olds row j
      = .fail olds (.fieldSetError (.dontKnow "" .Pointer)) ∧
    (∀ k : Kind,
      decodeFields pf (.cons fName true cap (.basic k) rest) olds (tok :: record)
        = (match coerce pf k tok with
          | some (.error e) => .fail olds (.failedParsing fName e)
          | some (.ok v) => (decodeFields pf rest olds.tail record).cons v
          | none => .fail olds (.dontKnow fName k)) ∧
      walk pf (.cons fName true cap (.basic k) rest) olds row j
        = (match SetFieldWithValue pf (.basic k) (.field (olds.headD (zeroBasic k))) tok with
          | .panic p => .panic p
          | .err e => .fail olds (.fieldSetError e)
          | .ok f => (walk pf rest olds.tail row (wrapInt (j + 1))).cons f.value)) := by
  refine ⟨decodeFields_at_unmarshaller pf fName cap elem nm u rest olds tok record hnm,
    walk_at_Unrecognized pf fName cap (.ptr elem nm (some u)) rest olds row j tok
      trivial hj, ?_⟩
  intro k
  refine ⟨decodeFields_at_basic pf fName cap k rest olds tok record, ?_⟩
  rw [walk]
  simp only [not_true_eq_false, if_false, hj]

/-- C13 at the field `P *Name` with the token `Ada`: `Decode` calls
`UnmarshalCSV`, `DeepUnmarshal` returns the unsupported-kind error. -/
theorem C13_Unmarshaller_witness :
    walk exampleParseFloat (.cons "P" true "" namePtr .nil) [.ptr none] ["Ada"] 0
      = .fail [.ptr none] (.fieldSetError (.dontKnow "" .Pointer)) ∧
    decodeFields exampleParseFloat (.cons "P" true "" namePtr .nil) [.ptr none] ["Ada"]
      = .done [.ptr (some (.str "Ada"))] :=
  ⟨(C13_only_Decode_consults_Unmarshaller_for_pointers exampleParseFloat "P" ""
      (.basic .String) 1 nameUnmarshalCSV .nil [.ptr none] "Ada" [] ["Ada"] 0 (by decide)
      rfl).2.1,
    rfl⟩

/-! ## C14 : what an error leaves behind -/

theorem getElem?_cons_tail (x : Value) (olds : List Value) (m : Nat) (hm : 0 < m) :
    (x :: olds.tail)[m]? = olds[m]? := by
  cases m with
  | zero => exact absurd hm (by decide)
  | succ m =>
    cases olds with
    | nil => simp
    | cons a as => simp

/-- The step of the walk at its first field does not depend on the fields
that follow: either it ends the walk with an error, every later field keeping
its value, or it panics, or the walk goes on to the following fields from a
cursor and with a value for the first field that are the same whatever
follows. -/
theorem walk_head_cases (pf : ParseFloatFn) (fName : String) (exported : Bool)
    (cap : String) (ty : Ty) (olds : List Value) (record : List String) (j : Int) :
    (∃ vals e, (∀ m, 0 < m → vals[m]? = olds[m]?) ∧
      ∀ rest, walk pf (.cons fName exported cap ty rest) olds record j = .fail vals e) ∨
    (∃ p, ∀ rest, walk pf (.cons fName exported cap ty rest) olds record j = .panic p) ∨
    (∃ v j', ∀ rest, walk pf (.cons fName exported cap ty rest) olds record j
      = (walk pf rest olds.tail record j').cons v) := by
  cases exported with
  | false =>
    refine Or.inl ⟨olds, .notSettable fName, fun _ _ => rfl, fun rest => ?_⟩
    cases ty <;> simp [walk]
  | true =>
    cases ty with
    | basic k =>
      cases hi : index record j with
      | none => exact Or.inr (Or.inl ⟨.indexOutOfRange, fun rest => by simp [walk, hi]⟩)
      | some tok =>
        cases hs : SetFieldWithValue pf (.basic k) (.field (olds.headD (zeroBasic k))) tok with
        | ok f =>
          exact Or.inr (Or.inr ⟨f.value, wrapInt (j + 1), fun rest => by rw [walk]; simp only [not_true_eq_false, if_false, hi, hs]⟩)
        | err e =>
          exact Or.inl ⟨olds, .fieldSetError e, fun _ _ => rfl,
            fun rest => by rw [walk]; simp only [not_true_eq_false, if_false, hi, hs]⟩
        | panic p => exact Or.inr (Or.inl ⟨p, fun rest => by rw [walk]; simp only [not_true_eq_false, if_false, hi, hs]⟩)
    | ptr el nm um =>
      cases hi : index record j with
      | none => exact Or.inr (Or.inl ⟨.indexOutOfRange, fun rest => by simp [walk, hi]⟩)
      | some tok =>
        cases hs : SetFieldWithValue pf (.ptr el nm um) (.field (olds.headD (.ptr none))) tok with
        | ok f =>
          exact Or.inr (Or.inr ⟨f.value, wrapInt (j + 1), fun rest => by rw [walk]; simp only [not_true_eq_false, if_false, hi, hs]⟩)
        | err e =>
          exact Or.inl ⟨olds, .fieldSetError e, fun _ _ => rfl,
            fun rest => by rw [walk]; simp only [not_true_eq_false, if_false, hi, hs]⟩
        | panic p => exact Or.inr (Or.inl ⟨p, fun rest => by rw [walk]; simp only [not_true_eq_false, if_false, hi, hs]⟩)
    | slice elem =>
      cases hp : ParseInt cap 0 with
      | error c =>
        exact Or.inl ⟨olds, .capTagError c j cap, fun _ _ => rfl,
          fun rest => by simp [walk, hp]⟩
      | ok add =>
        by_cases hneg : add < 0
        · exact Or.inr (Or.inl ⟨.makeSliceNegativeLen, fun rest => by simp [walk, hp, hneg]⟩)
        · cases hf : fillSlice pf (.slice elem) fName record j add.toNat 0
              (List.replicate add.toNat (zero elem)) with
          | ok b =>
            exact Or.inr (Or.inr ⟨.slice b, wrapInt (wrapInt (j + wrapInt (add - 1)) + 1),
              fun rest => by simp [walk, hp, hneg, hf]⟩)
          | err b e =>
            exact Or.inl ⟨.slice b :: olds.tail, e, getElem?_cons_tail _ olds,
              fun rest => by simp [walk, hp, hneg, hf]⟩
          | panic p => exact Or.inr (Or.inl ⟨p, fun rest => by simp [walk, hp, hneg, hf]⟩)
    | struct nfs =>
      cases hsub : sliceFrom record j with
      | none =>
        exact Or.inr (Or.inl ⟨.sliceBoundsOutOfRange, fun rest => by simp [walk, hsub]⟩)
      | some sub =>
        cases hn : walk pf nfs (zeroFields nfs) sub 0 with
        | panic p => exact Or.inr (Or.inl ⟨p, fun rest => by simp [walk, hsub, hn]⟩)
        | fail nvals e =>
          exact Or.inl ⟨.struct nvals :: olds.tail, .unmarshalError e,
            getElem?_cons_tail _ olds, fun rest => by simp [walk, hsub, hn]⟩
        | done nvals =>
          cases hc : DeepCount (.struct nfs) with
          | error e =>
            exact Or.inl ⟨.struct nvals :: olds.tail, .countingError e,
              getElem?_cons_tail _ olds, fun rest => by simp [walk, hsub, hn, hc]⟩
          | ok cnt =>
            exact Or.inr (Or.inr ⟨.struct nvals, wrapInt (wrapInt (j + cnt) + 1),
              fun rest => by simp [walk, hsub, hn, hc]⟩)

/-- A walk that ends with an error does so at some field `i`: the fields after
`i` hold what they held on entry, the walk over the first `i` fields alone
ends without error and gives the values that the fields before `i` now hold,
and the walk over the first `i + 1` fields alone ends with the same error and
the same field values. -/
theorem walk_fail_prefix (pf : ParseFloatFn) :
    ∀ (fs : Fields) (olds : List Value) (record : List String) (j : Int)
      (vals : List Value) (e : Error), walk pf fs olds record j = .fail vals e →
      ∃ i, i < fs.length ∧ (∀ m, i < m → vals[m]? = olds[m]?) ∧
        walk pf (fs.firstN i) olds record j = .done (vals.take i) ∧
        walk pf (fs.firstN (i + 1)) olds record j = .fail vals e
  | .nil, _, _, _, _, _, h => by simp [walk] at h
  | .cons fName exported cap ty rest, olds, record, j, vals, e, h => by
    rcases walk_head_cases pf fName exported cap ty olds record j with
      ⟨vals0, e0, hframe, hall⟩ | ⟨p, hall⟩ | ⟨v, j', hall⟩
    · rw [hall rest] at h
      cases h
      refine ⟨0, by simp [Fields.length], fun m hm => hframe m hm, ?_, ?_⟩
      · simp [Fields.firstN, walk]
      · simpa [Fields.firstN] using hall .nil
    · rw [hall rest] at h
      cases h
    · rw [hall rest] at h
      obtain ⟨vs, hvs, hvals⟩ := Walk.cons_eq_fail h
      subst hvals
      obtain ⟨i, hi, hframe, hdone, hfail⟩ :=
        walk_fail_prefix pf rest olds.tail record j' vs e hvs
      refine ⟨i + 1, by simp [Fields.length, hi], ?_, ?_, ?_⟩
      · intro m hm
        cases m with
        | zero => exact absurd hm (by omega)
        | succ m =>
          have := hframe m (by omega)
          cases olds with
          | nil => simpa using this
          | cons a as => simpa using this
      · simp only [Fields.firstN, hall, hdone, Walk.cons, List.take_succ_cons]
      · simp only [Fields.firstN, hall, hfail, Walk.cons]

/-- C14.  Decoding is fail-fast without rollback.  When `DeepUnmarshal`
returns an error, there is a top-level field `i` at which it was raised:
decoding the first `i + 1` fields alone returns the same error and leaves the
same field values, while decoding the first `i` fields alone succeeds.  Every
field with index greater than `i` holds the value it had before the call, and
the fields with index less than `i` hold their decoded values, the ones that
the successful decode of the first `i` fields gives. -/
theorem C14_error_keeps_later_fields_and_decoded_earlier_fields (pf : ParseFloatFn)
    (fs : Fields) (olds : List Value) (record : List String) (dest : Iface) (e : Error)
    (h : DeepUnmarshal pf (.pointer (.struct fs) (some (.struct olds))) record
      = .ret dest (some e)) :
    ∃ vals i, dest = .pointer (.struct fs) (some (.struct vals)) ∧ i < fs.length ∧
      (∀ m, i < m → vals[m]? = olds[m]?) ∧
      DeepUnmarshal pf (.pointer (.struct (fs.firstN i)) (some (.struct olds))) record
        = .ret (.pointer (.struct (fs.firstN i)) (some (.struct (vals.take i)))) none ∧
      DeepUnmarshal pf (.pointer (.struct (fs.firstN (i + 1))) (some (.struct olds))) record
        = .ret (.pointer (.struct (fs.firstN (i + 1))) (some (.struct vals))) (some e) := by
  simp only [DeepUnmarshal, fieldsOf] at h ⊢
  cases hw : walk pf fs olds record 0 with
  | done vals => rw [hw] at h; simp [Walk.toOutcome] at h
  | panic p => rw [hw] at h; simp [Walk.toOutcome] at h
  | fail vals e1 =>
    rw [hw] at h
    simp only [Walk.toOutcome, Outcome.ret.injEq, Option.some.injEq] at h
    obtain ⟨hd, he⟩ := h
    subst he
    obtain ⟨i, hi, hframe, hdone, hfail⟩ := walk_fail_prefix pf fs olds record 0 vals e1 hw
    exact ⟨vals, i, hd.symm, hi, hframe, by rw [hdone]; rfl, by rw [hfail]; rfl⟩

/-- C14 at `struct { A int; B bool; C int }` holding `{9 true 8}` and the row
`1, x, 3`: the error is raised at field 1, field 0 holds the decoded 1, and
field 2 still holds 8. -/
theorem C14_fail_fast_witness :
    DeepUnmarshal exampleParseFloat
        (.pointer (.struct scalarBoolScalar) (some (.struct [.int 9, .bool true, .int 8])))
        ["1", "x", "3"]
      = .ret (.pointer (.struct scalarBoolScalar)
            (some (.struct [.int 1, .bool true, .int 8])))
          (some (.fieldSetError (.dontKnow "bool" .Bool))) ∧
    ∃ vals i, Iface.pointer (.struct scalarBoolScalar)
          (some (.struct [.int 1, .bool true, .int 8]))
        = .pointer (.struct scalarBoolScalar) (some (.struct vals)) ∧
      i < scalarBoolScalar.length ∧
      (∀ m, i < m → vals[m]? = [Value.int 9, .bool true, .int 8][m]?) ∧
      DeepUnmarshal exampleParseFloat
          (.pointer (.struct (scalarBoolScalar.firstN i))
            (some (.struct [.int 9, .bool true, .int 8]))) ["1", "x", "3"]
        = .ret (.pointer (.struct (scalarBoolScalar.firstN i))
            (some (.struct (vals.take i)))) none ∧
      DeepUnmarshal exampleParseFloat
          (.pointer (.struct (scalarBoolScalar.firstN (i + 1)))
            (some (.struct [.int 9, .bool true, .int 8]))) ["1", "x", "3"]
        = .ret (.pointer (.struct (scalarBoolScalar.firstN (i + 1)))
            (some (.struct vals))) (some (.fieldSetError (.dontKnow "bool" .Bool))) :=
  ⟨rfl,
    C14_error_keeps_later_fields_and_decoded_earlier_fields exampleParseFloat
      scalarBoolScalar [.int 9, .bool true, .int 8] ["1", "x", "3"]
      (.pointer (.struct scalarBoolScalar) (some (.struct [.int 1, .bool true, .int 8])))
      (.fieldSetError (.dontKnow "bool" .Bool)) rfl⟩

/-! ## C20 : the prior contents of the destination -/

/-- What `SetFieldWithValue` writes into a field of a type that is not a slice
type does not depend on what the field holds. -/
theorem SetFieldWithValue_field_ok_indep (pf : ParseFloatFn) (ft : Ty) (c1 c2 : Value)
    (tok : String) (f : Target) (hft : ∀ elem, ft ≠ .slice elem)
    (h : SetFieldWithValue pf ft (.field c1) tok = .ok f) :
    SetFieldWithValue pf ft (.field c2) tok = .ok f := by
  unfold SetFieldWithValue at h ⊢
  simp only at h ⊢
  split
  · rename_i e he
    rw [he] at h
    cases h
  · rename_i v hv
    rw [hv] at h
    simpa [Target.set] using h
  · rename_i hn
    rw [hn] at h
    simp only at h
    split at h
    · split at h
      · exact absurd rfl (hft _)
      · exact absurd rfl (hft _)
      · exact absurd rfl (hft _)
      · cases h
    · cases h

/-- A step of the walk that goes on to the following fields does so with the
same value for the field and from the same cursor whatever the fields held
before. -/
theorem walk_head_done_indep (pf : ParseFloatFn) (fName : String) (exported : Bool)
    (cap : String) (ty : Ty) (rest : Fields) (olds : List Value) (record : List String)
    (j : Int) (vals : List Value)
    (h : walk pf (.cons fName exported cap ty rest) olds record j = .done vals) :
    ∃ v j' vs, vals = v :: vs ∧ walk pf rest olds.tail record j' = .done vs ∧
      ∀ olds2 rest2, walk pf (.cons fName exported cap ty rest2) olds2 record j
        = (walk pf rest2 olds2.tail record j').cons v := by
  cases exported with
  | false => cases ty <;> simp [walk] at h
  | true =>
    cases ty with
    | basic k =>
      rw [walk] at h
      simp only [not_true_eq_false, if_false] at h
      cases hi : index record j with
      | none => rw [hi] at h; cases h
      | some tok =>
        rw [hi] at h
        simp only at h
        cases hs : SetFieldWithValue pf (.basic k) (.field (olds.headD (zeroBasic k))) tok with
        | panic p => rw [hs] at h; cases h
        | err e => rw [hs] at h; cases h
        | ok f =>
          rw [hs] at h
          obtain ⟨vs, hvs, hvals⟩ := Walk.cons_eq_done h
          refine ⟨f.value, wrapInt (j + 1), vs, hvals, hvs, fun olds2 rest2 => ?_⟩
          rw [walk]
          simp only [not_true_eq_false, if_false, hi,
            SetFieldWithValue_field_ok_indep pf (.basic k) _ (olds2.headD (zeroBasic k)) tok f
              (fun _ hc => by cases hc) hs]
    | ptr el nm um =>
      rw [walk] at h
      simp only [not_true_eq_false, if_false] at h
      cases hi : index record j with
      | none => rw [hi] at h; cases h
      | some tok =>
        rw [hi] at h
        simp only at h
        rw [SetFieldWithValue_of_Unrecognized pf (.ptr el nm um) _ tok trivial] at h
        cases h
    | slice elem =>
      rw [walk] at h
      simp only [not_true_eq_false, if_false] at h
      cases hp : ParseInt cap 0 with
      | error c => rw [hp] at h; cases h
      | ok add =>
        rw [hp] at h
        simp only at h
        by_cases hneg : add < 0
        · rw [if_pos hneg] at h; cases h
        · rw [if_neg hneg] at h
          cases hf : fillSlice pf (.slice elem) fName record j add.toNat 0
              (List.replicate add.toNat (zero elem)) with
          | panic p => rw [hf] at h; cases h
          | err b e => rw [hf] at h; cases h
          | ok b =>
            rw [hf] at h
            obtain ⟨vs, hvs, hvals⟩ := Walk.cons_eq_done h
            refine ⟨.slice b, _, vs, hvals, hvs, fun olds2 rest2 => ?_⟩
            rw [walk]
            simp only [not_true_eq_false, if_false, hp, hneg, hf]
    | struct nfs =>
      rw [walk] at h
      simp only [not_true_eq_false, if_false] at h
      cases hsub : sliceFrom record j with
      | none => rw [hsub] at h; cases h
      | some sub =>
        rw [hsub] at h
        simp only at h
        cases hn : walk pf nfs (zeroFields nfs) sub 0 with
        | panic p => rw [hn] at h; cases h
        | fail nvals e => rw [hn] at h; cases h
        | done nvals =>
          rw [hn] at h
          simp only at h
          cases hc : DeepCount (.struct nfs) with
          | error e => rw [hc] at h; cases h
          | ok cnt =>
            rw [hc] at h
            obtain ⟨vs, hvs, hvals⟩ := Walk.cons_eq_done h
            refine ⟨.struct nvals, _, vs, hvals, hvs, fun olds2 rest2 => ?_⟩
            rw [walk]
            simp only [not_true_eq_false, if_false, hsub, hn, hc]

/-- A walk that ends without error gives the same field values whatever the
fields held before. -/
theorem walk_done_indep (pf : ParseFloatFn) :
    ∀ (fs : Fields) (olds1 olds2 : List Value) (record : List String) (j : Int)
      (vals : List Value), walk pf fs olds1 record j = .done vals →
      walk pf fs olds2 record j = .done vals
  | .nil, _, _, _, _, _, h => by simpa [walk] using h
  | .cons fName exported cap ty rest, olds1, olds2, record, j, vals, h => by
    obtain ⟨v, j', vs, hvals, hvs, hall⟩ :=
      walk_head_done_indep pf fName exported cap ty rest olds1 record j vals h
    rw [hall olds2 rest, walk_done_indep pf rest olds1.tail olds2.tail record j' vs hvs, hvals]
    rfl

/-- C20.  A successful recursive decode does not depend on the prior contents
of the destination.  If `DeepUnmarshal` returns `nil` on an instance `s1` of
the destination type, then on every other instance `s2` it returns `nil` too
and leaves the same value; so two successful decodes of the same token
sequence give equal instances. -/
theorem C20_success_is_independent_of_prior_contents (pf : ParseFloatFn) (fs : Fields)
    (s1 : Value) (record : List String) (d1 : Iface)
    (h1 : DeepUnmarshal pf (.pointer (.struct fs) (some s1)) record = .ret d1 none) :
    (∀ s2 : Value, DeepUnmarshal pf (.pointer (.struct fs) (some s2)) record = .ret d1 none) ∧
    (∀ (s2 : Value) (d2 : Iface),
      DeepUnmarshal pf (.pointer (.struct fs) (some s2)) record = .ret d2 none → d2 = d1) := by
  have key : ∀ s2 : Value,
      DeepUnmarshal pf (.pointer (.struct fs) (some s2)) record = .ret d1 none := by
    intro s2
    simp only [DeepUnmarshal] at h1 ⊢
    cases hw : walk pf fs (fieldsOf s1) record 0 with
    | fail vals e => rw [hw] at h1; simp [Walk.toOutcome] at h1
    | panic p => rw [hw] at h1; simp [Walk.toOutcome] at h1
    | done vals =>
      rw [hw] at h1
      rw [walk_done_indep pf fs (fieldsOf s1) (fieldsOf s2) record 0 vals hw]
      exact h1
  refine ⟨key, fun s2 d2 h2 => ?_⟩
  rw [key s2] at h2
  cases h2
  rfl

/-- C20 at the type of the example: the first row decoded into a zeroed
`Good` and into a `Good` that holds the second row give the same instance. -/
theorem C20_prior_contents_witness :
    DeepUnmarshal exampleParseFloat
        (.pointer (.struct exampleGood) (some (zero (.struct exampleGood))))
        ["0", "0.0", "10", "1", "false", "1002", "1003", "Boo", "Yeah", "Banjo"]
      = .ret (.pointer (.struct exampleGood) (some (.struct
          [.int 0, .float 0, .slice [.int 10, .int 1],
            .struct [.str "false", .slice [.int 1002, .int 1003],
              .slice [.str "Boo", .str "Yeah", .str "Banjo"]]]))) none ∧
    DeepUnmarshal exampleParseFloat
        (.pointer (.struct exampleGood) (some (.struct
          [.int 1, .float 0x4000CCCCCCCCCCCD, .slice [.int 11, .int 12],
            .struct [.str "true", .slice [.int 1002, .int 1005],
              .slice [.str "Boo", .str "Nay", .str "Banjo"]]])))
        ["0", "0.0", "10", "1", "false", "1002", "1003", "Boo", "Yeah", "Banjo"]
      = .ret (.pointer (.struct exampleGood) (some (.struct
          [.int 0, .float 0, .slice [.int 10, .int 1],
            .struct [.str "false", .slice [.int 1002, .int 1003],
              .slice [.str "Boo", .str "Yeah", .str "Banjo"]]]))) none :=
  ⟨rfl,
    (C20_success_is_independent_of_prior_contents exampleParseFloat exampleGood
      (zero (.struct exampleGood))
      ["0", "0.0", "10", "1", "false", "1002", "1003", "Boo", "Yeah", "Banjo"]
      (.pointer (.struct exampleGood) (some (.struct
          [.int 0, .float 0, .slice [.int 10, .int 1],
            .struct [.str "false", .slice [.int 1002, .int 1003],
              .slice [.str "Boo", .str "Yeah", .str "Banjo"]]]))) rfl).1 _⟩

/-! ## C15 : the bit-width ceiling of the integer kinds -/

theorem digitsValueFrom_cons (n : Nat) (c : Char) (cs : List Char) :
    digitsValueFrom n (c :: cs) = digitsValueFrom (n * 10 + (c.toNat - 48)) cs := rfl

theorem le_digitsValueFrom : ∀ (cs : List Char) (n : Nat), n ≤ digitsValueFrom n cs
  | [], n => Nat.le_refl n
  | c :: cs, n => by
    rw [digitsValueFrom_cons]
    have := le_digitsValueFrom cs (n * 10 + (c.toNat - 48))
    omega

theorem isDecimalDigit_iff (c : Char) :
    isDecimalDigit c = true ↔ 48 ≤ c.toNat ∧ c.toNat ≤ 57 := by
  simp [isDecimalDigit]

/-- The digit loop of `ParseUint` on a list of decimal digits: the value the
digits denote when it is at most `maxVal`, the range error otherwise. -/
theorem parseUintLoop_digits (maxVal : Nat) (hmax : maxVal < 2 ^ 64) :
    ∀ (cs : List Char) (n : Nat), cs.all isDecimalDigit = true → n ≤ maxVal →
      parseUintLoop ((2 ^ 64 - 1) / 10 + 1) maxVal cs n
        = if digitsValueFrom n cs ≤ maxVal then .ok (digitsValueFrom n cs)
          else .error .ErrRange
  | [], n, _, hn => by
    simp [parseUintLoop, digitsValueFrom, hn]
  | c :: cs, n, h, hn => by
    simp only [List.all_cons, Bool.and_eq_true] at h
    obtain ⟨hc, hcs⟩ := h
    have hd := (isDecimalDigit_iff c).mp hc
    have hmono := le_digitsValueFrom cs (n * 10 + (c.toNat - 48))
    have hcutoff : (2 ^ 64 - 1) / 10 + 1 = 1844674407370955162 := by norm_num
    rw [parseUintLoop, digitsValueFrom_cons]
    simp only [hd, and_self, if_true]
    by_cases hcut : n ≥ (2 ^ 64 - 1) / 10 + 1
    · rw [if_pos hcut, if_neg]
      rw [hcutoff] at hcut
      omega
    · rw [if_neg hcut]
      rw [hcutoff] at hcut
      by_cases hov : (n * 10 + (c.toNat - 48)) % 2 ^ 64 < n * 10 ∨
          (n * 10 + (c.toNat - 48)) % 2 ^ 64 > maxVal
      · rw [if_pos hov, if_neg]
        omega
      · rw [if_neg hov]
        have hn1 : (n * 10 + (c.toNat - 48)) % 2 ^ 64 = n * 10 + (c.toNat - 48) := by
          omega
        rw [hn1] at hov ⊢
        exact parseUintLoop_digits maxVal hmax cs _ hcs (by omega)

/-- The range check that follows the digit loop in `ParseInt`, on the outcome
of the loop for digits of value `v`, with `H` the half range `2^(bits-1)`. -/
theorem parseInt_range_core (v H : Nat) (hH : 0 < H) (neg : Prop) [Decidable neg] :
    (match (if v ≤ 2 * H - 1 then (.ok v : Except NumError Nat) else .error .ErrRange) with
      | .error e => (.error e : Except NumError Int)
      | .ok un =>
        if ¬ neg ∧ un ≥ H then .error .ErrRange
        else if neg ∧ un > H then .error .ErrRange
        else .ok (if neg then - (un : Int) else (un : Int)))
      = if -(H : Int) ≤ (if neg then - (v : Int) else (v : Int)) ∧
          (if neg then - (v : Int) else (v : Int)) < (H : Int)
        then .ok (if neg then - (v : Int) else (v : Int))
        else .error .ErrRange := by
  by_cases hn : neg
  · simp only [hn, not_true_eq_false, false_and, if_false, true_and, if_true]
    by_cases hle : v ≤ 2 * H - 1
    · simp only [hle, if_true]
      by_cases hv : v > H
      · rw [if_pos hv, if_neg (by omega)]
      · rw [if_neg hv, if_pos (by omega)]
    · simp only [hle, if_false]
      rw [if_neg (by omega)]
  · simp only [hn, not_false_eq_true, true_and, false_and, if_false]
    by_cases hle : v ≤ 2 * H - 1
    · simp only [hle, if_true]
      by_cases hv : v ≥ H
      · rw [if_pos hv, if_neg (by omega)]
      · rw [if_neg hv, if_pos (by omega)]
    · simp only [hle, if_false]
      rw [if_neg (by omega)]

/-- The digit loop of `ParseInt` followed by its range check, on a list of
decimal digits, with `H` the half range and `maxVal = 2 * H - 1`. -/
theorem parseInt_digits (digits : List Char) (neg : Prop) [Decidable neg] (maxVal H : Nat)
    (hM : maxVal = 2 * H - 1) (hH : 0 < H) (hlt : maxVal < 2 ^ 64)
    (hd : digits.all isDecimalDigit = true) :
    (match parseUintLoop ((2 ^ 64 - 1) / 10 + 1) maxVal digits 0 with
      | .error e => (.error e : Except NumError Int)
      | .ok un =>
        if ¬ neg ∧ un ≥ H then .error .ErrRange
        else if neg ∧ un > H then .error .ErrRange
        else .ok (if neg then - (un : Int) else (un : Int)))
      = if -(H : Int) ≤ (if neg then - (digitsValue digits : Int)
            else (digitsValue digits : Int)) ∧
          (if neg then - (digitsValue digits : Int) else (digitsValue digits : Int)) < (H : Int)
        then .ok (if neg then - (digitsValue digits : Int) else (digitsValue digits : Int))
        else .error .ErrRange := by
  rw [parseUintLoop_digits maxVal hlt digits 0 hd (Nat.zero_le _), hM]
  exact parseInt_range_core (digitsValue digits) H hH neg

/-- `strconv.ParseInt(s, 10, bitSize)` on a base-10 integer token: the integer
the token denotes when it fits in the bit size (64 bits for bit size 0), the
range error otherwise. -/
theorem ParseInt_base10 (s : String) (bitSize : Nat)
    (hb : bitSize = 0 ∨ bitSize = 8 ∨ bitSize = 16 ∨ bitSize = 32 ∨ bitSize = 64)
    (hs : isBase10Integer s = true) :
    ParseInt s bitSize
      = if -((2 ^ (storeBits bitSize - 1) : Nat) : Int) ≤ intOfToken s ∧
          intOfToken s < ((2 ^ (storeBits bitSize - 1) : Nat) : Int)
        then .ok (intOfToken s) else .error .ErrRange := by
  unfold ParseInt intOfToken
  unfold isBase10Integer at hs
  cases hl : s.toList with
  | nil => rw [hl] at hs; simp at hs
  | cons c cs =>
    rw [hl] at hs
    simp only [Bool.and_eq_true, Bool.not_eq_true', List.isEmpty_eq_false] at hs ⊢
    have hbits : (if bitSize = 0 then IntSize else bitSize) = storeBits bitSize := rfl
    have hH : 0 < 2 ^ (storeBits bitSize - 1) := by positivity
    have hM : 2 ^ storeBits bitSize - 1 = 2 * 2 ^ (storeBits bitSize - 1) - 1 := by
      rcases hb with h | h | h | h | h <;> subst h <;> norm_num [storeBits, IntSize]
    have hlt : 2 ^ storeBits bitSize - 1 < 2 ^ 64 := by
      rcases hb with h | h | h | h | h <;> subst h <;> norm_num [storeBits, IntSize]
    rw [hbits]
    by_cases hm : c = '-'
    · subst hm
      simp only [or_true, if_true] at hs ⊢
      obtain ⟨hne, hall⟩ := hs
      rw [if_neg (by simpa using hne)]
      exact parseInt_digits cs True _ _ hM hH hlt hall
    · by_cases hp : c = '+'
      · subst hp
        simp only [true_or, if_true] at hs ⊢
        obtain ⟨hne, hall⟩ := hs
        rw [if_neg (by simpa using hne)]
        simp only [hm, if_false]
        exact parseInt_digits cs False _ _ hM hH hlt hall
      · simp only [hp, hm, or_self, if_false] at hs ⊢
        obtain ⟨-, hall⟩ := hs
        rw [if_neg (by simp)]
        exact parseInt_digits (c :: cs) False _ _ hM hH hlt hall

/-- `strconv.ParseUint(s, 10, bitSize)` on a token of decimal digits: the
number the token denotes when it fits in the bit size (64 bits for bit size
0), the range error otherwise. -/
theorem ParseUint_digits (s : String) (bitSize : Nat)
    (hb : bitSize = 0 ∨ bitSize = 8 ∨ bitSize = 16 ∨ bitSize = 32 ∨ bitSize = 64)
    (hs : isUnsignedBase10 s = true) :
    ParseUint s bitSize
      = if digitsValue s.toList < 2 ^ storeBits bitSize then .ok (digitsValue s.toList)
        else .error .ErrRange := by
  unfold ParseUint
  unfold isUnsignedBase10 at hs
  simp only [Bool.and_eq_true, Bool.not_eq_true', List.isEmpty_eq_false] at hs
  obtain ⟨hne, hall⟩ := hs
  have hbits : (if bitSize = 0 then IntSize else bitSize) = storeBits bitSize := rfl
  have hlt : 2 ^ storeBits bitSize - 1 < 2 ^ 64 := by
    rcases hb with h | h | h | h | h <;> subst h <;> norm_num [storeBits, IntSize]
  have hpos : 0 < 2 ^ storeBits bitSize := by positivity
  rw [if_neg (by simpa using hne)]
  simp only [hbits]
  rw [parseUintLoop_digits _ hlt s.toList 0 hall (Nat.zero_le _)]
  change (if digitsValue s.toList ≤ 2 ^ storeBits bitSize - 1 then _ else _) = _
  by_cases h : digitsValue s.toList < 2 ^ storeBits bitSize
  · rw [if_pos h, if_pos (by omega)]
    rfl
  · rw [if_neg h, if_neg (by omega)]

/-- `strconv.ParseUint` accepts no sign: a base-10 integer token that starts
with a sign is a syntax error. -/
theorem ParseUint_signed (s : String) (bitSize : Nat) (hs : isBase10Integer s = true)
    (hu : isUnsignedBase10 s = false) : ParseUint s bitSize = .error .ErrSyntax := by
  unfold ParseUint
  unfold isBase10Integer at hs
  unfold isUnsignedBase10 at hu
  cases hl : s.toList with
  | nil => rw [hl] at hs; simp at hs
  | cons c cs =>
    rw [hl] at hs hu
    simp only [Bool.and_eq_true, Bool.not_eq_true', List.isEmpty_eq_false] at hs
    have hsign : c = '+' ∨ c = '-' := by
      by_contra hc
      rw [if_neg hc] at hs
      rw [hs.2] at hu
      simp at hu
    have hnd : ¬ (48 ≤ c.toNat ∧ c.toNat ≤ 57) := by
      rcases hsign with h | h <;> subst h <;> decide
    rw [if_neg (by simp), parseUintLoop, if_neg hnd]

theorem wrapSigned_of_range (bits : Nat) (x : Int)
    (hb : bits = 8 ∨ bits = 16 ∨ bits = 32 ∨ bits = 64)
    (h1 : -(2 : Int) ^ (bits - 1) ≤ x) (h2 : x < (2 : Int) ^ (bits - 1)) :
    wrapSigned bits x = x := by
  unfold wrapSigned
  rcases hb with h | h | h | h <;> subst h <;> norm_num at h1 h2 ⊢ <;> omega

theorem ne_empty_of_isBase10Integer (s : String) (hs : isBase10Integer s = true) :
    (s != "") = true := by
  have : s ≠ "" := by
    intro h
    subst h
    simp [isBase10Integer] at hs
  simpa using this

theorem intKindToSize_sizes {k : Kind} {size : Nat} (h : intKindToSize k = some size) :
    size = 0 ∨ size = 8 ∨ size = 16 ∨ size = 32 ∨ size = 64 := by
  cases k <;> simp [intKindToSize] at h <;> omega

theorem uintKindToSize_sizes {k : Kind} {size : Nat} (h : uintKindToSize k = some size) :
    size = 0 ∨ size = 8 ∨ size = 16 ∨ size = 32 ∨ size = 64 := by
  cases k <;> simp [uintKindToSize] at h <;> omega

theorem storeBits_sizes {size : Nat}
    (h : size = 0 ∨ size = 8 ∨ size = 16 ∨ size = 32 ∨ size = 64) :
    storeBits size = 8 ∨ storeBits size = 16 ∨ storeBits size = 32 ∨ storeBits size = 64 := by
  rcases h with h | h | h | h | h <;> subst h <;> simp [storeBits, IntSize]

/-- C15 as stated fails.  The default-width kind `int` is not unbounded: its
table entry 0 makes `ParseInt` check the range of a 64-bit `int`, so the
base-10 integer token `9223372036854775808` (`2^63`) is rejected with a range
error.  And an unsigned kind accepts no sign: the token `+5`, which denotes 5,
is a syntax error for `uint8`. -/
theorem C15_default_width_is_64_bits_and_unsigned_takes_no_sign :
    isBase10Integer "9223372036854775808" = true ∧
    SetFieldWithValue exampleParseFloat (.basic .Int) (.field (.int 0))
        "9223372036854775808"
      = .err (.failedParsing "int" .ErrRange) ∧
    isBase10Integer "+5" = true ∧ intOfToken "+5" = 5 ∧
    SetFieldWithValue exampleParseFloat (.basic .Uint8) (.field (.uint 0)) "+5"
      = .err (.failedParsing "uint8" .ErrSyntax) :=
  ⟨rfl, rfl, rfl, rfl, rfl⟩

theorem Ty.name_of_intKind {k : Kind} {size : Nat} (h : intKindToSize k = some size) :
    Ty.name (.basic k) = kindName k := by
  cases k <;> simp [intKindToSize] at h <;> rfl

theorem Ty.name_of_uintKind {k : Kind} {size : Nat} (h : uintKindToSize k = some size) :
    Ty.name (.basic k) = kindName k := by
  cases k <;> simp [uintKindToSize] at h <;> rfl

/-- C15, amended.  Let the token be a base-10 integer (an optional sign, then
decimal digits).  For a signed integer kind of width `w` (8, 16, 32 or 64, and
64 for the default-width kind `int`) `SetFieldWithValue` stores the integer
`v` the token denotes when `-2^(w-1) <= v < 2^(w-1)` and returns the parse
error (out of range) otherwise.  For an unsigned kind of width `w` (64 for
`uint`) it stores `v` when the token has no sign and `v < 2^w`, returns the
parse error (out of range) when the token has no sign and `v >= 2^w`, and
returns the parse error (syntax) when the token has a sign. -/
theorem C15_integer_tokens_are_range_checked_at_the_kind_width (pf : ParseFloatFn)
    (k : Kind) (old : Value) (tok : String) (htok : isBase10Integer tok = true) :
    (∀ size, intKindToSize k = some size →
      SetFieldWithValue pf (.basic k) (.field old) tok
        = if -(2 : Int) ^ (storeBits size - 1) ≤ intOfToken tok ∧
            intOfToken tok < (2 : Int) ^ (storeBits size - 1)
          then .ok (.field (.int (intOfToken tok)))
          else .err (.failedParsing (kindName k) .ErrRange)) ∧
    (∀ size, uintKindToSize k = some size →
      SetFieldWithValue pf (.basic k) (.field old) tok
        = if isUnsignedBase10 tok = true then
            (if digitsValue tok.toList < 2 ^ storeBits size
              then .ok (.field (.uint (digitsValue tok.toList)))
              else .err (.failedParsing (kindName k) .ErrRange))
          else .err (.failedParsing (kindName k) .ErrSyntax)) ∧
    storeBits 0 = 64 := by
  have hne := ne_empty_of_isBase10Integer tok htok
  refine ⟨?_, ?_, rfl⟩
  · intro size hk
    have hsz := intKindToSize_sizes hk
    have hp := ParseInt_base10 tok size hsz htok
    simp only [Nat.cast_pow, Nat.cast_ofNat] at hp
    simp only [SetFieldWithValue, Ty.kind, Ty.name_of_intKind hk, coerce, hk, hne, if_true, hp]
    by_cases hr : -(2 : Int) ^ (storeBits size - 1) ≤ intOfToken tok ∧
        intOfToken tok < (2 : Int) ^ (storeBits size - 1)
    · simp only [hr, and_self, if_true, Target.set,
        wrapSigned_of_range (storeBits size) (intOfToken tok) (storeBits_sizes hsz) hr.1 hr.2]
    · simp only [hr, if_false]
  · intro size hk
    have hsz := uintKindToSize_sizes hk
    have hi : intKindToSize k = none := by
      cases k <;> simp [uintKindToSize] at hk <;> rfl
    by_cases hu : isUnsignedBase10 tok = true
    · have hp := ParseUint_digits tok size hsz hu
      simp only [SetFieldWithValue, Ty.kind, Ty.name_of_uintKind hk, coerce, hi, hk, hne,
        if_true, hp, hu]
      by_cases hr : digitsValue tok.toList < 2 ^ storeBits size
      · simp only [hr, if_true, Target.set, Nat.mod_eq_of_lt hr]
      · simp only [hr, if_false]
    · have hu' : isUnsignedBase10 tok = false := by simpa using hu
      have hp := ParseUint_signed tok size htok hu'
      simp only [SetFieldWithValue, Ty.kind, Ty.name_of_uintKind hk, coerce, hi, hk, hne,
        if_true, hp, hu']
      rfl

/-- C15 at `int8`: `-128` is stored and `128` is out of range; at `int`:
`9223372036854775807` is stored; at `uint16`: `65535` is stored and `65536`
is out of range. -/
theorem C15_integer_width_witness :
    isBase10Integer "-128" = true ∧
    SetFieldWithValue exampleParseFloat (.basic .Int8) (.field (.int 0)) "-128"
      = .ok (.field (.int (-128))) ∧
    SetFieldWithValue exampleParseFloat (.basic .Int8) (.field (.int 0)) "128"
      = .err (.failedParsing "int8" .ErrRange) ∧
    SetFieldWithValue exampleParseFloat (.basic .Int) (.field (.int 0)) "9223372036854775807"
      = .ok (.field (.int 9223372036854775807)) ∧
    SetFieldWithValue exampleParseFloat (.basic .Uint16) (.field (.uint 0)) "65535"
      = .ok (.field (.uint 65535)) ∧
    SetFieldWithValue exampleParseFloat (.basic .Uint16) (.field (.uint 0)) "65536"
      = .err (.failedParsing "uint16" .ErrRange) ∧
    (∀ size, intKindToSize .Int8 = some size →
      SetFieldWithValue exampleParseFloat (.basic .Int8) (.field (.int 0)) "-128"
        = if -(2 : Int) ^ (storeBits size - 1) ≤ intOfToken "-128" ∧
            intOfToken "-128" < (2 : Int) ^ (storeBits size - 1)
          then .ok (.field (.int (intOfToken "-128")))
          else .err (.failedParsing (kindName .Int8) .ErrRange)) :=
  ⟨rfl, rfl, rfl, rfl, rfl, rfl,
    (C15_integer_tokens_are_range_checked_at_the_kind_width exampleParseFloat .Int8
      (.int 0) "-128" rfl).1⟩

end Csv
